import Mathlib

set_option autoImplicit false

/-!
# Circuit Construction Kit (common): model of the adapter, the charge propagator and the wire

Shallow embedding of
* `js/model/ModifiedNodalAnalysisAdapter.js`
* `js/common/model/ConstantDensityPropagator.js`
* `js/common/model/ConstantDensityLayout.js`
* `js/model/Wire.js`, `js/CCKCConstants.js`

JavaScript numbers are modelled by exact rationals; objects live in a heap indexed by natural
numbers (object identity), arrays are lists of references. Where a result depends on the
rounding of doubles (the number of electrons that `layoutElectrons` places) every operation
is followed by the rounding `roundDouble`.
-/

namespace CCK

/-! ## ModifiedNodalAnalysisAdapter -/

/-- The result of a JavaScript call that yields a number, `NaN` or `undefined`. -/
inductive JSValue where
  | undefined : JSValue
  | nan : JSValue
  | num (q : ℚ) : JSValue
  deriving DecidableEq, Repr

/-- The expression `v || 0` for a value `v` that is a number, `NaN` or `undefined`:
falsy values (`undefined`, `NaN`, `0`) give `0`. -/
def JSValue.orZero : JSValue → ℚ
  | .undefined => 0
  | .nan => 0
  | .num q => if q = 0 then 0 else q

/-- The concrete class of a circuit element, as tested by the `instanceof` chain of
`ModifiedNodalAnalysisAdapter.apply`; `Other` is any class that none of the tests accepts. -/
inductive ElementType where
  | Battery | Resistor | Fuse | Wire | LightBulb | SeriesAmmeter | Switch
  | Capacitor | ACVoltage | Inductor | Other
  deriving DecidableEq, Repr

/-- The fields of a circuit element that the adapter reads or writes. `startVertex` and
`endVertex` are references to vertex objects. -/
structure CircuitElement where
  type : ElementType
  startVertex : Nat
  endVertex : Nat
  closed : Bool
  voltage : ℚ
  internalResistance : ℚ
  resistance : ℚ
  capacitance : ℚ
  inductance : ℚ
  mnaVoltageDrop : ℚ
  mnaCurrent : ℚ
  current : ℚ
  deriving DecidableEq, Repr

/-- `Array.prototype.indexOf`: the first position of `v`, or `-1` when `v` does not occur. -/
def indexOf (l : List Nat) (v : Nat) : Int :=
  if v ∈ l then (l.indexOf v : Int) else -1

structure ResistiveBatteryAdapter where
  node0 : Int
  node1 : Int
  voltage : ℚ
  resistance : ℚ
  battery : Nat
  deriving DecidableEq, Repr

structure ResistorAdapter where
  node0 : Int
  node1 : Int
  resistance : ℚ
  resistor : Nat
  deriving DecidableEq, Repr

/-- `DynamicCircuit.Capacitor`, the inner element of a `CapacitorAdapter`. -/
structure DynamicCircuitCapacitor where
  node0 : Int
  node1 : Int
  capacitance : ℚ
  deriving DecidableEq, Repr

/-- `DynamicCircuit.Inductor`, the inner element of an `InductorAdapter`. -/
structure DynamicCircuitInductor where
  node0 : Int
  node1 : Int
  inductance : ℚ
  deriving DecidableEq, Repr

/-- `DynamicCircuit.DynamicElementState( voltage, current )`. -/
structure DynamicElementState where
  voltage : ℚ
  current : ℚ
  deriving DecidableEq, Repr

structure CapacitorAdapter where
  capacitor : DynamicCircuitCapacitor
  state : DynamicElementState
  _capacitor : Nat
  deriving DecidableEq, Repr

structure InductorAdapter where
  inductor : DynamicCircuitInductor
  state : DynamicElementState
  _inductor : Nat
  deriving DecidableEq, Repr

/-- The object a solution is queried with: the adapter itself for batteries and resistors, the
inner `DynamicCircuit.Capacitor` / `DynamicCircuit.Inductor` for the dynamic elements. -/
inductive SolverElement where
  | battery (a : ResistiveBatteryAdapter)
  | resistor (a : ResistorAdapter)
  | capacitor (a : DynamicCircuitCapacitor)
  | inductor (a : DynamicCircuitInductor)
  deriving DecidableEq, Repr

/-- What `dynamicCircuit.solveWithSubdivisions` returns, as far as `apply` uses it.
`states` is `resultSet.states`, each entry reduced to its `state.solution.getNodeVoltage`. -/
structure CircuitResult where
  getTimeAverageCurrent : SolverElement → ℚ
  getInstantaneousCurrent : SolverElement → ℚ
  getInstantaneousVoltage : SolverElement → ℚ
  states : List (Nat → JSValue)

/-- The circuit as the adapter sees it: the two arrays of references, the heap of circuit
elements, the `voltageProperty` of every vertex and the solution stored by `setSolution`. -/
structure Circuit where
  circuitElements : List Nat
  vertices : List Nat
  element : Nat → CircuitElement
  voltage : Nat → ℚ
  solution : Option CircuitResult

/-- The four arrays filled by the first loop of `apply`. -/
structure AdapterLists where
  batteries : List ResistiveBatteryAdapter
  resistors : List ResistorAdapter
  capacitors : List CapacitorAdapter
  inductors : List InductorAdapter
  deriving DecidableEq, Repr

/-- The arguments of `new DynamicCircuit( [], resistors, [], batteries, capacitors, inductors )`;
the first and third arguments are the empty array literal. -/
structure DynamicCircuit where
  resistors : List ResistorAdapter
  batteries : List ResistiveBatteryAdapter
  capacitors : List CapacitorAdapter
  inductors : List InductorAdapter
  deriving DecidableEq, Repr

def errorThreshold : ℚ := 1 / 100000

def minDT : ℚ := 1 / 100000

/-- The absent solver: `new DynamicCircuit( ... ).solveWithSubdivisions(
new TimestepSubdivisions( errorThreshold, minDT ), dt )`. -/
abbrev Solver := DynamicCircuit → ℚ → ℚ → ℚ → CircuitResult

/-- Constructor of `ResistiveBatteryAdapter`. -/
def ResistiveBatteryAdapter.new (c : Circuit) (battery : Nat) : ResistiveBatteryAdapter :=
  { node0 := indexOf c.vertices (c.element battery).startVertex
    node1 := indexOf c.vertices (c.element battery).endVertex
    voltage := (c.element battery).voltage
    resistance := (c.element battery).internalResistance
    battery := battery }

/-- Constructor of `ResistorAdapter`. -/
def ResistorAdapter.new (c : Circuit) (resistor : Nat) : ResistorAdapter :=
  { node0 := indexOf c.vertices (c.element resistor).startVertex
    node1 := indexOf c.vertices (c.element resistor).endVertex
    resistance := (c.element resistor).resistance
    resistor := resistor }

/-- Constructor of `CapacitorAdapter`. -/
def CapacitorAdapter.new (c : Circuit) (capacitor : Nat) : CapacitorAdapter :=
  { capacitor :=
      { node0 := indexOf c.vertices (c.element capacitor).startVertex
        node1 := indexOf c.vertices (c.element capacitor).endVertex
        capacitance := (c.element capacitor).capacitance }
    state :=
      { voltage := (c.element capacitor).mnaVoltageDrop
        current := (c.element capacitor).mnaCurrent }
    _capacitor := capacitor }

/-- Constructor of `InductorAdapter`; the state carries the negated `mnaCurrent`. -/
def InductorAdapter.new (c : Circuit) (inductor : Nat) : InductorAdapter :=
  { inductor :=
      { node0 := indexOf c.vertices (c.element inductor).startVertex
        node1 := indexOf c.vertices (c.element inductor).endVertex
        inductance := (c.element inductor).inductance }
    state :=
      { voltage := (c.element inductor).mnaVoltageDrop
        current := -(c.element inductor).mnaCurrent }
    _inductor := inductor }

/-- The test of the second arm of the `instanceof` chain. -/
def isResistive (b : CircuitElement) : Bool :=
  b.type = .Resistor || b.type = .Fuse || b.type = .Wire || b.type = .LightBulb ||
    b.type = .SeriesAmmeter || (b.type = .Switch && b.closed)

/-- The test `branch instanceof Switch && !branch.closedProperty.value`. -/
def isOpenSwitch (b : CircuitElement) : Bool :=
  b.type = .Switch && !b.closed

/-- One iteration of the first loop of `apply`, with assertions enabled: the last arm fails. -/
def addAdapter (c : Circuit) (acc : AdapterLists) (branch : Nat) : Except String AdapterLists :=
  let b := c.element branch
  if b.type = .Battery then
    .ok { acc with batteries := acc.batteries ++ [ResistiveBatteryAdapter.new c branch] }
  else if isResistive b then
    .ok { acc with resistors := acc.resistors ++ [ResistorAdapter.new c branch] }
  else if isOpenSwitch b then
    .ok acc
  else if b.type = .Capacitor then
    .ok { acc with capacitors := acc.capacitors ++ [CapacitorAdapter.new c branch] }
  else if b.type = .ACVoltage then
    .ok { acc with batteries := acc.batteries ++ [ResistiveBatteryAdapter.new c branch] }
  else if b.type = .Inductor then
    .ok { acc with inductors := acc.inductors ++ [InductorAdapter.new c branch] }
  else
    .error "Type not found"

/-- The first loop of `apply` over the remaining elements. -/
def buildAdapters (c : Circuit) : List Nat → AdapterLists → Except String AdapterLists
  | [], acc => .ok acc
  | branch :: rest, acc =>
    match addAdapter c acc branch with
    | .ok acc' => buildAdapters c rest acc'
    | .error e => .error e

/-- Assignment `element.currentProperty.value = v` on the heap. -/
def Circuit.setCurrent (c : Circuit) (e : Nat) (v : ℚ) : Circuit :=
  { c with element := Function.update c.element e { c.element e with current := v } }

/-- Assignment `element.mnaCurrent = v` on the heap. -/
def Circuit.setMnaCurrent (c : Circuit) (e : Nat) (v : ℚ) : Circuit :=
  { c with element := Function.update c.element e { c.element e with mnaCurrent := v } }

/-- Assignment `element.mnaVoltageDrop = v` on the heap. -/
def Circuit.setMnaVoltageDrop (c : Circuit) (e : Nat) (v : ℚ) : Circuit :=
  { c with element := Function.update c.element e { c.element e with mnaVoltageDrop := v } }

def ResistiveBatteryAdapter.applySolution (a : ResistiveBatteryAdapter) (result : CircuitResult)
    (c : Circuit) : Circuit :=
  c.setCurrent a.battery (result.getTimeAverageCurrent (.battery a))

def ResistorAdapter.applySolution (a : ResistorAdapter) (solution : CircuitResult)
    (c : Circuit) : Circuit :=
  c.setCurrent a.resistor (solution.getTimeAverageCurrent (.resistor a))

def CapacitorAdapter.applySolution (a : CapacitorAdapter) (solution : CircuitResult)
    (c : Circuit) : Circuit :=
  let c1 := c.setCurrent a._capacitor (solution.getTimeAverageCurrent (.capacitor a.capacitor))
  let c2 := c1.setMnaCurrent a._capacitor (solution.getInstantaneousCurrent (.capacitor a.capacitor))
  c2.setMnaVoltageDrop a._capacitor (solution.getInstantaneousVoltage (.capacitor a.capacitor))

def InductorAdapter.applySolution (a : InductorAdapter) (solution : CircuitResult)
    (c : Circuit) : Circuit :=
  let c1 := c.setCurrent a._inductor (-solution.getTimeAverageCurrent (.inductor a.inductor))
  let c2 := c1.setMnaCurrent a._inductor (-solution.getInstantaneousCurrent (.inductor a.inductor))
  c2.setMnaVoltageDrop a._inductor (solution.getInstantaneousVoltage (.inductor a.inductor))

/-- One iteration of the loop "zero out currents on open branches". -/
def zeroOpenBranch (c : Circuit) (branch : Nat) : Circuit :=
  if isOpenSwitch (c.element branch) then c.setCurrent branch 0 else c

/-- The loop "zero out currents on open branches". -/
def zeroOpenBranches (c : Circuit) : Circuit :=
  c.circuitElements.foldl zeroOpenBranch c

/-- `vertex.voltageProperty.set( x )` on the heap. -/
def Circuit.setVoltage (c : Circuit) (vertex : Nat) (x : ℚ) : Circuit :=
  { c with voltage := Function.update c.voltage vertex x }

/-- The `forEach` over `circuit.vertices.getArray()`, started at index `i`, reading the node
voltages from `getNodeVoltage`. -/
def setVertexVoltages (getNodeVoltage : Nat → JSValue) : List Nat → Nat → Circuit → Circuit
  | [], _, c => c
  | vertex :: rest, i, c =>
    setVertexVoltages getNodeVoltage rest (i + 1) (c.setVoltage vertex (getNodeVoltage i).orZero)

/-- "Apply the node voltages to the vertices". The callback reads `resultSet.states[ 0 ]` on
every call, so with at least one vertex and no state the read of `.state` of `undefined`
throws. -/
def applyNodeVoltages (circuitResult : CircuitResult) (c : Circuit) : Except String Circuit :=
  match c.vertices with
  | [] => .ok c
  | _ :: _ =>
    match circuitResult.states with
    | [] => .error "TypeError: states[ 0 ] is undefined"
    | s :: _ => .ok (setVertexVoltages s c.vertices 0 c)

/-- Everything `apply` does after the adapters are built. -/
def applyResult (lists : AdapterLists) (circuitResult : CircuitResult) (circuit : Circuit) :
    Except String Circuit :=
  let c1 := lists.batteries.foldl (fun c a => a.applySolution circuitResult c) circuit
  let c2 := lists.resistors.foldl (fun c a => a.applySolution circuitResult c) c1
  let c3 := lists.capacitors.foldl (fun c a => a.applySolution circuitResult c) c2
  let c4 := lists.inductors.foldl (fun c a => a.applySolution circuitResult c) c3
  let c5 := zeroOpenBranches c4
  let c6 : Circuit := { c5 with solution := some circuitResult }
  applyNodeVoltages circuitResult c6

/-- `ModifiedNodalAnalysisAdapter.apply( circuit, dt )`. -/
def apply (solve : Solver) (circuit : Circuit) (dt : ℚ) : Except String Circuit :=
  match buildAdapters circuit circuit.circuitElements ⟨[], [], [], []⟩ with
  | .error e => .error e
  | .ok lists =>
    let dynamicCircuit : DynamicCircuit :=
      ⟨lists.resistors, lists.batteries, lists.capacitors, lists.inductors⟩
    let circuitResult := solve dynamicCircuit errorThreshold minDT dt
    applyResult lists circuitResult circuit

/-- The elements that become a `ResistiveBatteryAdapter`: `Battery` and `ACVoltage`. -/
def isVoltageSource (b : CircuitElement) : Bool :=
  b.type = .Battery || b.type = .ACVoltage

/-- The number of adapters of all four kinds. -/
def AdapterLists.total (lists : AdapterLists) : Nat :=
  lists.batteries.length + lists.resistors.length + lists.capacitors.length +
    lists.inductors.length

/-- A circuit element with the given class, vertices, switch state and resistance. -/
def sampleElement (type : ElementType) (startVertex endVertex : Nat) (closed : Bool)
    (resistance : ℚ) : CircuitElement :=
  { type := type, startVertex := startVertex, endVertex := endVertex, closed := closed,
    voltage := 9, internalResistance := 0, resistance := resistance, capacitance := 0,
    inductance := 0, mnaVoltageDrop := 0, mnaCurrent := 0, current := 7 }

/-- A loop of a battery (object 0), an open switch (object 1) and a resistor (object 2) on
the vertices 10, 11 and 12. -/
def sampleCircuit : Circuit :=
  { circuitElements := [0, 1, 2]
    vertices := [10, 11, 12]
    element := fun b =>
      if b = 0 then sampleElement .Battery 10 11 false 0
      else if b = 1 then sampleElement .Switch 11 12 false 1000000000
      else sampleElement .Resistor 12 10 false 10
    voltage := fun _ => 0
    solution := none }

/-- A solver result with current 2 through everything, two entries in the node table and
one state. -/
def sampleResult : CircuitResult :=
  { getTimeAverageCurrent := fun _ => 2
    getInstantaneousCurrent := fun _ => 2
    getInstantaneousVoltage := fun _ => 3
    states := [fun i => if i = 0 then .num 0 else if i = 1 then .num 9 else .undefined] }

def sampleSolver : Solver := fun _ _ _ _ => sampleResult

/-- The part of a circuit that no assignment of `apply` touches: the two arrays and, for
every element, its class, its switch state and its vertices. -/
def Circuit.SameShape (c c' : Circuit) : Prop :=
  c'.circuitElements = c.circuitElements ∧ c'.vertices = c.vertices ∧
    ∀ b, (c'.element b).type = (c.element b).type ∧
      (c'.element b).closed = (c.element b).closed ∧
      (c'.element b).startVertex = (c.element b).startVertex ∧
      (c'.element b).endVertex = (c.element b).endVertex

/-! ## ConstantDensityPropagator -/

/-- A branch of the circuit as the propagator sees it: `id` is the identity of the object,
the junctions are references, `current` is `getCurrent()` and `length` is `getLength()`. -/
structure Branch where
  id : Nat
  startJunction : Nat
  endJunction : Nat
  current : ℚ
  length : ℚ
  deriving DecidableEq, Repr

/-- An electron: the branch it is on (`getBranch()`, `circuitElement`) and its distance along
that branch (`distance`, `getDistAlongWire()`). -/
structure Electron where
  branch : Branch
  distance : ℚ
  deriving DecidableEq, Repr

def FIRE_CURRENT : ℚ := 10

def MIN_CURRENT : ℚ := 1 / 10 ^ 10

def numEqualize : ℚ := 2

def speedScale : ℚ := (1 / 100) / (3 / 100)

/-- Modelled from the spec: `branch.containsScalarLocation( distance )` of the absent branch
class; the distance lies on the branch, `0 <= distance <= length`. -/
def containsScalarLocation (branch : Branch) (distance : ℚ) : Bool :=
  0 ≤ distance && distance ≤ branch.length

/-- The object literal returned by `createCircuitLocation`; `density` starts as `null`. -/
structure CircuitLocation where
  branch : Branch
  distance : ℚ
  density : Option ℚ
  deriving DecidableEq, Repr

/-- `createCircuitLocation( branch, distance )` with assertions enabled. -/
def createCircuitLocation (branch : Branch) (distance : ℚ) : Except String CircuitLocation :=
  if containsScalarLocation branch distance then
    .ok { branch := branch, distance := distance, density := none }
  else
    .error "branch should contain distance"

/-- The two-armed clamp applied to `distAlongNew` in `getLocations`. -/
def clampDistAlongNew (distAlongNew length : ℚ) : ℚ :=
  if distAlongNew > length then length
  else if distAlongNew < 0 then 0
  else distAlongNew

/-- The current of a neighbour limited to `[-FIRE_CURRENT, FIRE_CURRENT]`. -/
def limitCurrent (current : ℚ) : ℚ :=
  if current > FIRE_CURRENT then FIRE_CURRENT
  else if current < -FIRE_CURRENT then -FIRE_CURRENT
  else current

/-- One iteration of the loop of `getLocations`. In the second arm the location is created
and then handed to `all.add`; `all` is an array literal, which has `push` but no `add`, so
the call throws a `TypeError`. -/
def getLocationsStep (jroot : Nat) (overshoot : ℚ) (all : List CircuitLocation)
    (neighbor : Branch) : Except String (List CircuitLocation) :=
  let current := limitCurrent neighbor.current
  if current > 0 ∧ neighbor.startJunction = jroot then
    match createCircuitLocation neighbor (clampDistAlongNew overshoot neighbor.length) with
    | .ok location => .ok (all ++ [location])
    | .error e => .error e
  else if current < 0 ∧ neighbor.endJunction = jroot then
    match createCircuitLocation neighbor
        (clampDistAlongNew (neighbor.length - overshoot) neighbor.length) with
    | .ok _ => .error "TypeError: all.add is not a function"
    | .error e => .error e
  else
    .ok all

/-- The loop of `getLocations` over the remaining adjacent branches. -/
def getLocationsLoop (jroot : Nat) (overshoot : ℚ) :
    List Branch → List CircuitLocation → Except String (List CircuitLocation)
  | [], all => .ok all
  | neighbor :: rest, all =>
    match getLocationsStep jroot overshoot all neighbor with
    | .ok all' => getLocationsLoop jroot overshoot rest all'
    | .error e => .error e

/-- `getLocations( electron, dt, overshoot, under )`; `getAdjacentBranches` is
`this.circuit.getAdjacentBranches`. -/
def getLocations (getAdjacentBranches : Nat → List Branch) (electron : Electron) (dt : ℚ)
    (overshoot : ℚ) (under : Bool) : Except String (List CircuitLocation) :=
  let _ := dt
  let branch := electron.branch
  let jroot := if under then branch.startJunction else branch.endJunction
  let adjacentBranches := getAdjacentBranches jroot
  getLocationsLoop jroot overshoot adjacentBranches []

/-- The speed at which `equalizeElectron` corrects a position: faster when the move is in the
direction of the current. -/
def correctionSpeed (vec current : ℚ) : ℚ :=
  let myscale : ℚ := 1000 / 30
  if vec > 0 ∧ current > 0 then (55 / 1000) / numEqualize * myscale
  else (1 / 100) / numEqualize * myscale

/-- `equalizeElectron( electron, dt )`. `upper` and `lower` are the results of
`getUpperNeighborInBranch` and `getLowerNeighborInBranch` (`none` is `null`); `highestSoFar`
is the debugging variable of the module, compared as 0 while it is `null`. The result is the
electron and the debugging variable afterwards. -/
def equalizeElectron (upper lower : Option Electron) (highestSoFar : Option ℚ)
    (electron : Electron) (dt : ℚ) : Electron × Option ℚ :=
  match upper, lower with
  | some upper, some lower =>
    let sep := upper.distance - lower.distance
    let myloc := electron.distance
    let midpoint := lower.distance + sep / 2
    let dest := midpoint
    let distMoving := |dest - myloc|
    let vec := dest - myloc
    let maxDX := |correctionSpeed vec electron.branch.current * dt|
    let highestSoFar' := if distMoving > highestSoFar.getD 0 then some distMoving else highestSoFar
    let dest :=
      if distMoving > maxDX then
        if dest < myloc then myloc - maxDX
        else if dest > myloc then myloc + maxDX
        else dest
      else dest
    if 0 ≤ dest ∧ dest ≤ electron.branch.length then
      ({ electron with distance := dest }, highestSoFar')
    else
      (electron, highestSoFar')
  | _, _ => (electron, highestSoFar)

/-- The overshoot and the `under` flag computed by `propagate` when the new position is not
on the branch. -/
def overshootOf (branch : Branch) (newX : ℚ) : ℚ × Bool :=
  if newX < 0 then (-newX, true) else (|branch.length - newX|, false)

/-- `propagate( e, dt )` with assertions enabled; `scale` is `this.scale`. Rationals are
never `NaN`, so the first assertion on the overshoot cannot fail. After the second assertion
the electron is moved to the chosen location; `chooseDestinationBranch` asks every location
for `getBranch()`, which the object literal of `createCircuitLocation` does not have. -/
def propagate (getAdjacentBranches : Nat → List Branch) (scale : ℚ) (e : Electron) (dt : ℚ) :
    Except String Electron :=
  let x := e.distance
  let current := e.branch.current
  if current = 0 ∨ |current| < MIN_CURRENT then .ok e
  else
    let speed := current * speedScale
    let dx := speed * dt * scale
    let newX := x + dx
    let branch := e.branch
    if containsScalarLocation branch newX then .ok { e with distance := newX }
    else
      let overshoot := (overshootOf branch newX).1
      let under := (overshootOf branch newX).2
      if ¬ overshoot < 0 then .error "overshoot is <0"
      else
        match getLocations getAdjacentBranches e dt overshoot under with
        | .error m => .error m
        | .ok locationArray =>
          if locationArray.length = 0 then .ok e
          else .error "TypeError: circuitLocation.getBranch is not a function"

/-- An electron on a branch of length 1 from junction 1 to junction 2 with current 3. -/
def sampleElectron : Electron :=
  { branch := { id := 0, startJunction := 1, endJunction := 2, current := 3, length := 1 }
    distance := 1 / 2 }

/-- At junction 2 start a branch with current 3 (leaving) and end a branch with current -1
(also leaving, against its direction). -/
def sampleAdjacentBranches : Nat → List Branch := fun jroot =>
  if jroot = 2 then
    [{ id := 1, startJunction := 2, endJunction := 3, current := 3, length := 1 },
     { id := 2, startJunction := 4, endJunction := 2, current := -1, length := 1 }]
  else []

/-! ## ConstantDensityLayout -/

/-- The number of binary digits of `n`, found in at most `fuel` halvings. -/
def bitLength : Nat → Nat → Nat
  | 0, _ => 0
  | fuel + 1, n => if n = 0 then 0 else bitLength fuel (n / 2) + 1

/-- The result of a JavaScript arithmetic operation whose exact value is `q`: the nearest
number with a 53-bit significand, ties to the even significand (IEEE 754 binary64, round to
nearest). With `k` the binary exponent of `|q|`, the unit in the last place is `2 ^ (k - 52)`
and `|q|` is rounded to a multiple of it. The exponent is not bounded, so this is JavaScript's
result as long as it neither overflows nor is subnormal. -/
def roundDouble (q : ℚ) : ℚ :=
  if q = 0 then 0
  else
    let a := |q|
    let k : Int := (bitLength a.num.natAbs a.num.natAbs : Int) - (bitLength a.den a.den : Int)
    let k := if (2 : ℚ) ^ k ≤ a then k else k - 1
    let ulp : ℚ := 2 ^ (k - 52)
    let s := a / ulp
    let m := ⌊s⌋
    let frac := s - m
    let m' := if frac < 1 / 2 then m else if 1 / 2 < frac then m + 1
      else if m % 2 = 0 then m else m + 1
    (if q < 0 then -1 else 1) * m' * ulp

def dolayout : Bool := true

def electronsVisible : Bool := true

/-- `layoutElectrons( circuitElement )` on the electron collection `electrons`. Every
arithmetic operation of the code yields `round` of its exact result: `roundDouble` is
JavaScript, the identity is exact arithmetic. `ELECTRON_DX` is the constant
`CircuitConstructionKitConstants.electronDX`, which is defined outside the files at hand and
is not zero; `getElectronsInCircuitElement` selects the electrons whose branch is the given
object. -/
def layoutElectrons (round : ℚ → ℚ) (ELECTRON_DX : ℚ) (electrons : List Electron)
    (circuitElement : Branch) : List Electron :=
  let particlesInBranch := electrons.filter (fun e => e.branch.id = circuitElement.id)
  let electrons := electrons.filter (fun e => e ∉ particlesInBranch)
  if electronsVisible then
    let offset := round (ELECTRON_DX / 2)
    let endingPoint := round (circuitElement.length - offset)
    let L := round (endingPoint - offset)
    let desiredDensity := round (1 / ELECTRON_DX)
    let N := round (L * desiredDensity)
    let integralNumberParticles : Int := ⌈N⌉
    let mydensity := round (round ((integralNumberParticles : ℚ) - 1) / L)
    let dx := round (1 / mydensity)
    let integralNumberParticles := if mydensity = 0 then 0 else integralNumberParticles
    electrons ++ (List.range integralNumberParticles.toNat).map
      (fun (i : Nat) =>
        ({ branch := circuitElement, distance := round (round ((i : ℚ) * dx) + offset) } :
          Electron))
  else
    electrons

/-- No operation of `layoutElectrons` on an element of length `len` is changed by the
rounding: each intermediate result, computed exactly, is a number that `round` leaves as it
is. -/
def layoutIsExact (round : ℚ → ℚ) (ELECTRON_DX len : ℚ) : Prop :=
  let offset := ELECTRON_DX / 2
  let endingPoint := len - offset
  let L := endingPoint - offset
  let desiredDensity := 1 / ELECTRON_DX
  let N := L * desiredDensity
  let integralNumberParticles : Int := ⌈N⌉
  let mydensity := ((integralNumberParticles : ℚ) - 1) / L
  let dx := 1 / mydensity
  round offset = offset ∧ round endingPoint = endingPoint ∧ round L = L ∧
    round desiredDensity = desiredDensity ∧ round N = N ∧
    round ((integralNumberParticles : ℚ) - 1) = (integralNumberParticles : ℚ) - 1 ∧
    round mydensity = mydensity ∧ round dx = dx ∧
    ∀ i : Nat, i < integralNumberParticles.toNat →
      round ((i : ℚ) * dx) = (i : ℚ) * dx ∧
      round ((i : ℚ) * dx + offset) = (i : ℚ) * dx + offset

/-! ## Wire -/

/-- A position, `DOT/Vector2`. -/
structure Vector2 (K : Type) where
  x : K
  y : K

/-- Conversion factor between view coordinates and meters, 0.0005. -/
def METERS_PER_VIEW_COORDINATE (K : Type) [LinearOrderedField K] : K := 5 / 10000

/-- `CCKCConstants.WIRE_CROSS_SECTIONAL_AREA`, 5E-4. -/
def WIRE_CROSS_SECTIONAL_AREA (K : Type) [LinearOrderedField K] : K := 5 / 10000

/-- `CCKCConstants.MINIMUM_RESISTANCE`, 1E-8. -/
def MINIMUM_RESISTANCE (K : Type) [LinearOrderedField K] : K := 1 / 10 ^ 8

/-- The state of a wire over an ordered field of numbers: the positions of its two vertices,
the value of `resistivityProperty`, `chargePathLength`, the values of `resistanceProperty` and
`lengthProperty`, and the flag `wireDirty`. -/
structure Wire (K : Type) where
  startPosition : Vector2 K
  endPosition : Vector2 K
  resistivity : K
  chargePathLength : K
  resistance : K
  length : K
  wireDirty : Bool

/-- `markWireDirty()`. -/
def Wire.markWireDirty {K : Type} (w : Wire K) : Wire K :=
  { w with wireDirty := true }

/-- `update()`; `distance` is `Vector2.distance` of the DOT library. Numbers of an ordered
field are never `NaN`, so the assertion on the clamped resistance cannot fail. -/
def Wire.update {K : Type} [LinearOrderedField K] (distance : Vector2 K → Vector2 K → K)
    (w : Wire K) : Wire K :=
  if w.wireDirty then
    let startPosition := w.startPosition
    let endPosition := w.endPosition
    let distanceBetweenVertices := distance startPosition endPosition
    let modelLength := distanceBetweenVertices * METERS_PER_VIEW_COORDINATE K
    let resistance := w.resistivity * modelLength / WIRE_CROSS_SECTIONAL_AREA K
    let clampedResistance := max (MINIMUM_RESISTANCE K) resistance
    { w with
      length := modelLength
      resistance := clampedResistance
      chargePathLength := max distanceBetweenVertices (1 / 10 ^ 6)
      wireDirty := false }
  else
    w

/-- `step( time, dt )`. -/
def Wire.step {K : Type} [LinearOrderedField K] (distance : Vector2 K → Vector2 K → K)
    (time dt : K) (w : Wire K) : Wire K :=
  let _ := time
  let _ := dt
  w.update distance

/-- The constructor: the charge path length handed to the superclass, the initial values of
the properties, the listener that `link` calls once at once, and the final `update()`. -/
def Wire.new {K : Type} [LinearOrderedField K] (distance : Vector2 K → Vector2 K → K)
    (startPosition endPosition : Vector2 K) (resistivity : K) : Wire K :=
  let chargePathLength := distance startPosition endPosition
  let w : Wire K :=
    { startPosition := startPosition
      endPosition := endPosition
      resistivity := resistivity
      chargePathLength := chargePathLength
      resistance := MINIMUM_RESISTANCE K
      length := 0
      wireDirty := true }
  let w := w.markWireDirty
  w.update distance

/-- What can happen to a wire after construction: a vertex moves (the `vertexMovedEmitter`
listener marks the wire dirty), the resistivity changes (the linked listener marks the wire
dirty), or one of `markWireDirty`, `step`, `update` is called. -/
inductive WireAction (K : Type) where
  | moveStartVertex (position : Vector2 K)
  | moveEndVertex (position : Vector2 K)
  | setResistivity (resistivity : K)
  | markWireDirty
  | step (time dt : K)
  | update

/-- The effect of one action on the wire. -/
def Wire.perform {K : Type} [LinearOrderedField K] (distance : Vector2 K → Vector2 K → K)
    (w : Wire K) : WireAction K → Wire K
  | .moveStartVertex position => Wire.markWireDirty { w with startPosition := position }
  | .moveEndVertex position => Wire.markWireDirty { w with endPosition := position }
  | .setResistivity resistivity => Wire.markWireDirty { w with resistivity := resistivity }
  | .markWireDirty => w.markWireDirty
  | .step time dt => w.step distance time dt
  | .update => w.update distance

/-- The wire after a sequence of actions. -/
def Wire.run {K : Type} [LinearOrderedField K] (distance : Vector2 K → Vector2 K → K)
    (w : Wire K) (actions : List (WireAction K)) : Wire K :=
  actions.foldl (Wire.perform distance) w

/-- A distance on rational positions that is the Euclidean one for two positions at the same
height or at the same abscissa. -/
def sampleDistance (a b : Vector2 ℚ) : ℚ :=
  |a.x - b.x| + |a.y - b.y|

/-- A dirty wire from (0, 0) to (100, 0) with the default resistivity 1.68E-8 and stale
values. -/
def sampleWire : Wire ℚ :=
  { startPosition := ⟨0, 0⟩
    endPosition := ⟨100, 0⟩
    resistivity := 168 / 10 ^ 10
    chargePathLength := 1
    resistance := 1
    length := 0
    wireDirty := true }

/-- A dirty wire whose two vertices coincide at (3, 4). -/
def coincidentWire : Wire ℚ :=
  { startPosition := ⟨3, 4⟩
    endPosition := ⟨3, 4⟩
    resistivity := 168 / 10 ^ 10
    chargePathLength := 0
    resistance := 1
    length := 7
    wireDirty := true }

/-! ## CircuitElementIO -/

/-- The engine `phet.phetIo.phetioEngine` of the phet-io library, as far as
`fromStateObject` uses it: whether an ID is registered, and the object (a reference) that
`getPhetioObject` yields for an ID. -/
structure PhetioEngine where
  hasPhetioObject : String → Bool
  getPhetioObject : String → Nat

/-- The state object written by `toStateObject`. -/
structure StateObject where
  startVertexID : String
  endVertexID : String
  deriving DecidableEq, Repr

/-- The object returned by `fromStateObject`: two object references. -/
structure ElementState where
  startVertex : Nat
  endVertex : Nat
  deriving DecidableEq, Repr

/-- What `fromStateObject` can throw. -/
inductive DeserializeError where
  | CouldNotYetDeserializeError
  deriving DecidableEq, Repr

/-- `toStateObject( circuitElement )`; `phetioID` gives `vertex.tandem.phetioID` for
every vertex object. The argument is a circuit element by its type, so `validate` with the
`instanceof CircuitElement` validator passes. -/
def toStateObject (phetioID : Nat → String) (circuitElement : CircuitElement) : StateObject :=
  { startVertexID := phetioID circuitElement.startVertex
    endVertexID := phetioID circuitElement.endVertex }

/-- `fromStateObject( stateObject )`. -/
def fromStateObject (phetioEngine : PhetioEngine) (stateObject : StateObject) :
    Except DeserializeError ElementState :=
  if phetioEngine.hasPhetioObject stateObject.startVertexID &&
      phetioEngine.hasPhetioObject stateObject.endVertexID then
    .ok { startVertex := phetioEngine.getPhetioObject stateObject.startVertexID
          endVertex := phetioEngine.getPhetioObject stateObject.endVertexID }
  else
    .error .CouldNotYetDeserializeError

/-- `stateToArgsForConstructor( state )`. -/
def stateToArgsForConstructor (state : ElementState) : List Nat :=
  [state.startVertex, state.endVertex]

/-- The phet-io IDs of the vertex objects 10, 11 and 12 of the sample circuit. -/
def samplePhetioID : Nat → String := fun vertex =>
  if vertex = 10 then "circuit.vertex10"
  else if vertex = 11 then "circuit.vertex11"
  else "circuit.vertex12"

/-- An engine in which the vertices 10 and 11 are registered under their IDs and nothing
else is. -/
def sampleEngine : PhetioEngine :=
  { hasPhetioObject := fun phetioID =>
      phetioID = "circuit.vertex10" || phetioID = "circuit.vertex11"
    getPhetioObject := fun phetioID =>
      if phetioID = "circuit.vertex10" then 10
      else if phetioID = "circuit.vertex11" then 11
      else 0 }

/-! ## Theorems: ModifiedNodalAnalysisAdapter -/

theorem buildAdapters_eq (c : Circuit) (l : List Nat) (acc : AdapterLists)
    (hType : ∀ b ∈ l, (c.element b).type ≠ .Other) :
    buildAdapters c l acc = .ok
      { batteries := acc.batteries ++
          (l.filter (fun b => isVoltageSource (c.element b))).map (ResistiveBatteryAdapter.new c)
        resistors := acc.resistors ++
          (l.filter (fun b => isResistive (c.element b))).map (ResistorAdapter.new c)
        capacitors := acc.capacitors ++
          (l.filter (fun b => (c.element b).type = .Capacitor)).map (CapacitorAdapter.new c)
        inductors := acc.inductors ++
          (l.filter (fun b => (c.element b).type = .Inductor)).map (InductorAdapter.new c) } := by
  induction l generalizing acc with
  | nil => simp [buildAdapters]
  | cons b rest ih =>
    have hb := hType b (List.mem_cons_self _ _)
    have hrest : ∀ x ∈ rest, (c.element x).type ≠ .Other :=
      fun x hx => hType x (List.mem_cons_of_mem _ hx)
    rcases hty : (c.element b).type <;> rcases hcl : (c.element b).closed <;>
      simp_all [buildAdapters, addAdapter, isResistive, isOpenSwitch, isVoltageSource]

theorem adapter_count (c : Circuit) (l : List Nat)
    (hType : ∀ b ∈ l, (c.element b).type ≠ .Other) :
    (l.filter (fun b => isVoltageSource (c.element b))).length +
      (l.filter (fun b => isResistive (c.element b))).length +
      (l.filter (fun b => (c.element b).type = .Capacitor)).length +
      (l.filter (fun b => (c.element b).type = .Inductor)).length +
      (l.filter (fun b => isOpenSwitch (c.element b))).length = l.length := by
  induction l with
  | nil => simp
  | cons b rest ih =>
    have hb := hType b (List.mem_cons_self _ _)
    have hrest : ∀ x ∈ rest, (c.element x).type ≠ .Other :=
      fun x hx => hType x (List.mem_cons_of_mem _ hx)
    have ih' := ih hrest
    rcases hty : (c.element b).type <;> rcases hcl : (c.element b).closed <;>
      simp_all [isResistive, isOpenSwitch, isVoltageSource] <;> omega

theorem indexOf_of_mem (l : List Nat) (v : Nat) (h : v ∈ l) :
    ∃ i : Nat, indexOf l v = (i : Int) ∧ i < l.length ∧ l.get? i = some v := by
  refine ⟨l.indexOf v, by simp [indexOf, h], List.indexOf_lt_length.mpr h, ?_⟩
  rw [List.get?_eq_get (List.indexOf_lt_length.mpr h)]
  simp

theorem indexOf_of_not_mem (l : List Nat) (v : Nat) (h : v ∉ l) : indexOf l v = -1 := by
  simp [indexOf, h]

/-- C1: `apply` turns every element into at most one adapter chosen by its class. When no
element falls through to the "Type not found" arm, the first loop succeeds; the batteries are
the Battery and ACVoltage elements, the resistors are the Resistor, Fuse, Wire, LightBulb,
SeriesAmmeter and closed Switch elements, the capacitors the Capacitor elements, the inductors
the Inductor elements, each in circuit order and built by its constructor; these lists are
what the solver receives; their total is the number of elements minus the number of open
switches; every adapter carries the values of its element and the `indexOf` of the element's
start and end vertex in `circuit.vertices`, which is the position of that vertex. -/
theorem apply_maps_elements_by_type (solve : Solver) (c : Circuit) (dt : ℚ)
    (hType : ∀ b ∈ c.circuitElements, (c.element b).type ≠ .Other) :
    ∃ lists : AdapterLists,
      buildAdapters c c.circuitElements ⟨[], [], [], []⟩ = .ok lists ∧
      apply solve c dt = applyResult lists
        (solve ⟨lists.resistors, lists.batteries, lists.capacitors, lists.inductors⟩
          errorThreshold minDT dt) c ∧
      lists.batteries = (c.circuitElements.filter (fun b =>
          (c.element b).type = .Battery ∨ (c.element b).type = .ACVoltage)).map
            (ResistiveBatteryAdapter.new c) ∧
      lists.resistors = (c.circuitElements.filter (fun b =>
          (c.element b).type = .Resistor ∨ (c.element b).type = .Fuse ∨
          (c.element b).type = .Wire ∨ (c.element b).type = .LightBulb ∨
          (c.element b).type = .SeriesAmmeter ∨
          ((c.element b).type = .Switch ∧ (c.element b).closed = true))).map
            (ResistorAdapter.new c) ∧
      lists.capacitors = (c.circuitElements.filter (fun b =>
          (c.element b).type = .Capacitor)).map (CapacitorAdapter.new c) ∧
      lists.inductors = (c.circuitElements.filter (fun b =>
          (c.element b).type = .Inductor)).map (InductorAdapter.new c) ∧
      lists.total = c.circuitElements.length - (c.circuitElements.filter (fun b =>
          (c.element b).type = .Switch ∧ (c.element b).closed = false)).length ∧
      (∀ a ∈ lists.batteries,
        a.node0 = indexOf c.vertices (c.element a.battery).startVertex ∧
        a.node1 = indexOf c.vertices (c.element a.battery).endVertex ∧
        a.voltage = (c.element a.battery).voltage ∧
        a.resistance = (c.element a.battery).internalResistance) ∧
      (∀ a ∈ lists.resistors,
        a.node0 = indexOf c.vertices (c.element a.resistor).startVertex ∧
        a.node1 = indexOf c.vertices (c.element a.resistor).endVertex ∧
        a.resistance = (c.element a.resistor).resistance) ∧
      (∀ a ∈ lists.capacitors,
        a.capacitor.node0 = indexOf c.vertices (c.element a._capacitor).startVertex ∧
        a.capacitor.node1 = indexOf c.vertices (c.element a._capacitor).endVertex ∧
        a.capacitor.capacitance = (c.element a._capacitor).capacitance) ∧
      (∀ a ∈ lists.inductors,
        a.inductor.node0 = indexOf c.vertices (c.element a._inductor).startVertex ∧
        a.inductor.node1 = indexOf c.vertices (c.element a._inductor).endVertex ∧
        a.inductor.inductance = (c.element a._inductor).inductance) ∧
      (∀ v ∈ c.vertices, ∃ i : Nat,
        indexOf c.vertices v = (i : Int) ∧ i < c.vertices.length ∧
        c.vertices.get? i = some v) := by
  have hb := buildAdapters_eq c c.circuitElements ⟨[], [], [], []⟩ hType
  have hcount := adapter_count c c.circuitElements hType
  refine ⟨_, hb, ?_, ?_, ?_, rfl, rfl, ?_, ?_, ?_, ?_, ?_, ?_⟩
  · simp only [apply, hb]
  · simp [isVoltageSource]
  · simp [isResistive, Bool.or_assoc]
  · simp only [AdapterLists.total, List.nil_append, List.length_map]
    simp only [isOpenSwitch, Bool.and_eq_true, decide_eq_true_eq, Bool.not_eq_true'] at hcount
    have : (c.circuitElements.filter (fun b =>
        decide ((c.element b).type = .Switch ∧ (c.element b).closed = false))).length =
        (c.circuitElements.filter (fun b =>
        decide ((c.element b).type = .Switch) && !(c.element b).closed)).length := by
      congr 2; funext b; cases (c.element b).closed <;> simp
    omega
  · intro a ha
    simp only [List.nil_append, List.mem_map] at ha
    obtain ⟨b, -, rfl⟩ := ha
    simp [ResistiveBatteryAdapter.new]
  · intro a ha
    simp only [List.nil_append, List.mem_map] at ha
    obtain ⟨b, -, rfl⟩ := ha
    simp [ResistorAdapter.new]
  · intro a ha
    simp only [List.nil_append, List.mem_map] at ha
    obtain ⟨b, -, rfl⟩ := ha
    simp [CapacitorAdapter.new]
  · intro a ha
    simp only [List.nil_append, List.mem_map] at ha
    obtain ⟨b, -, rfl⟩ := ha
    simp [InductorAdapter.new]
  · intro v hv
    exact indexOf_of_mem c.vertices v hv

theorem SameShape.refl (c : Circuit) : c.SameShape c :=
  ⟨rfl, rfl, fun _ => ⟨rfl, rfl, rfl, rfl⟩⟩

theorem SameShape.trans {a b c : Circuit} (h1 : a.SameShape b) (h2 : b.SameShape c) :
    a.SameShape c := by
  obtain ⟨e1, v1, f1⟩ := h1
  obtain ⟨e2, v2, f2⟩ := h2
  refine ⟨e2.trans e1, v2.trans v1, fun x => ?_⟩
  obtain ⟨p1, p2, p3, p4⟩ := f1 x
  obtain ⟨q1, q2, q3, q4⟩ := f2 x
  exact ⟨q1.trans p1, q2.trans p2, q3.trans p3, q4.trans p4⟩

theorem setCurrent_sameShape (c : Circuit) (e : Nat) (v : ℚ) : c.SameShape (c.setCurrent e v) := by
  refine ⟨rfl, rfl, fun x => ?_⟩
  by_cases hx : x = e
  · subst hx; simp [Circuit.setCurrent]
  · simp [Circuit.setCurrent, Function.update_noteq hx]

theorem setMnaCurrent_sameShape (c : Circuit) (e : Nat) (v : ℚ) :
    c.SameShape (c.setMnaCurrent e v) := by
  refine ⟨rfl, rfl, fun x => ?_⟩
  by_cases hx : x = e
  · subst hx; simp [Circuit.setMnaCurrent]
  · simp [Circuit.setMnaCurrent, Function.update_noteq hx]

theorem setMnaVoltageDrop_sameShape (c : Circuit) (e : Nat) (v : ℚ) :
    c.SameShape (c.setMnaVoltageDrop e v) := by
  refine ⟨rfl, rfl, fun x => ?_⟩
  by_cases hx : x = e
  · subst hx; simp [Circuit.setMnaVoltageDrop]
  · simp [Circuit.setMnaVoltageDrop, Function.update_noteq hx]

theorem foldl_sameShape {α : Type} (f : Circuit → α → Circuit)
    (hf : ∀ (c : Circuit) (a : α), c.SameShape (f c a)) (l : List α) (c : Circuit) :
    c.SameShape (l.foldl f c) := by
  induction l generalizing c with
  | nil => exact SameShape.refl c
  | cons a rest ih => exact SameShape.trans (hf c a) (ih (f c a))

theorem zeroOpenBranch_sameShape (c : Circuit) (b : Nat) : c.SameShape (zeroOpenBranch c b) := by
  unfold zeroOpenBranch
  split
  · exact setCurrent_sameShape c b 0
  · exact SameShape.refl c

theorem zeroOpenBranch_keeps_zero (c : Circuit) (b x : Nat) (h : (c.element x).current = 0) :
    ((zeroOpenBranch c b).element x).current = 0 := by
  unfold zeroOpenBranch
  split
  · by_cases hx : x = b
    · subst hx; simp [Circuit.setCurrent]
    · simpa [Circuit.setCurrent, Function.update_noteq hx] using h
  · exact h

theorem foldl_zeroOpenBranch_keeps_zero (l : List Nat) (c : Circuit) (x : Nat)
    (h : (c.element x).current = 0) : ((l.foldl zeroOpenBranch c).element x).current = 0 := by
  induction l generalizing c with
  | nil => exact h
  | cons b rest ih => exact ih _ (zeroOpenBranch_keeps_zero c b x h)

theorem foldl_zeroOpenBranch_zero (l : List Nat) (c : Circuit) (x : Nat) (hx : x ∈ l)
    (hopen : isOpenSwitch (c.element x) = true) :
    ((l.foldl zeroOpenBranch c).element x).current = 0 := by
  induction l generalizing c with
  | nil => simp at hx
  | cons b rest ih =>
    simp only [List.foldl_cons]
    rcases List.mem_cons.mp hx with rfl | hmem
    · apply foldl_zeroOpenBranch_keeps_zero
      simp [zeroOpenBranch, hopen, Circuit.setCurrent]
    · apply ih _ hmem
      obtain ⟨-, -, hs⟩ := zeroOpenBranch_sameShape c b
      simpa [isOpenSwitch, (hs x).1, (hs x).2.1] using hopen

theorem setVertexVoltages_element (g : Nat → JSValue) (l : List Nat) (i : Nat) (c : Circuit) :
    (setVertexVoltages g l i c).element = c.element ∧
    (setVertexVoltages g l i c).circuitElements = c.circuitElements ∧
    (setVertexVoltages g l i c).vertices = c.vertices := by
  induction l generalizing i c with
  | nil => exact ⟨rfl, rfl, rfl⟩
  | cons v rest ih =>
    simp only [setVertexVoltages]
    obtain ⟨h1, h2, h3⟩ := ih (i + 1) (c.setVoltage v (g i).orZero)
    exact ⟨h1, h2, h3⟩

theorem battery_applySolution_sameShape (r : CircuitResult) (c : Circuit)
    (a : ResistiveBatteryAdapter) : c.SameShape (a.applySolution r c) :=
  setCurrent_sameShape _ _ _

theorem resistor_applySolution_sameShape (r : CircuitResult) (c : Circuit)
    (a : ResistorAdapter) : c.SameShape (a.applySolution r c) :=
  setCurrent_sameShape _ _ _

theorem capacitor_applySolution_sameShape (r : CircuitResult) (c : Circuit)
    (a : CapacitorAdapter) : c.SameShape (a.applySolution r c) :=
  SameShape.trans (SameShape.trans (setCurrent_sameShape _ _ _) (setMnaCurrent_sameShape _ _ _))
    (setMnaVoltageDrop_sameShape _ _ _)

theorem inductor_applySolution_sameShape (r : CircuitResult) (c : Circuit)
    (a : InductorAdapter) : c.SameShape (a.applySolution r c) :=
  SameShape.trans (SameShape.trans (setCurrent_sameShape _ _ _) (setMnaCurrent_sameShape _ _ _))
    (setMnaVoltageDrop_sameShape _ _ _)

theorem applyNodeVoltages_ok (r : CircuitResult) (c6 c' : Circuit)
    (h : applyNodeVoltages r c6 = .ok c') :
    c'.element = c6.element ∧ c'.circuitElements = c6.circuitElements ∧
      c'.vertices = c6.vertices ∧
      (c6.vertices = [] ∨ ∃ s rest, r.states = s :: rest ∧
        c' = setVertexVoltages s c6.vertices 0 c6) := by
  unfold applyNodeVoltages at h
  split at h
  · next hvs =>
    simp only [Except.ok.injEq] at h
    subst h
    exact ⟨rfl, rfl, rfl, Or.inl hvs⟩
  · next v vs hvs =>
    split at h
    · simp at h
    · next s rest hst =>
      simp only [Except.ok.injEq] at h
      subst h
      obtain ⟨h1, h2, h3⟩ := setVertexVoltages_element s c6.vertices 0 c6
      exact ⟨h1, h2, h3, Or.inr ⟨s, rest, hst, rfl⟩⟩

/-- What a successful `applyResult` leaves behind: the element heap is the one after the
zeroing loop, run on a circuit of the same shape, and the voltages come from the first
state. -/
theorem applyResult_ok (lists : AdapterLists) (r : CircuitResult) (c c' : Circuit)
    (h : applyResult lists r c = .ok c') :
    ∃ c4 : Circuit, c.SameShape c4 ∧ c'.element = (zeroOpenBranches c4).element ∧
      c'.circuitElements = c.circuitElements ∧ c'.vertices = c.vertices ∧
      (c.vertices = [] ∨ ∃ s rest c6, r.states = s :: rest ∧
        c'.voltage = (setVertexVoltages s c.vertices 0 c6).voltage) := by
  unfold applyResult at h
  simp only at h
  generalize hc4 : List.foldl (fun c a => InductorAdapter.applySolution a r c)
    (List.foldl (fun c a => CapacitorAdapter.applySolution a r c)
      (List.foldl (fun c a => ResistorAdapter.applySolution a r c)
        (List.foldl (fun c a => ResistiveBatteryAdapter.applySolution a r c) c lists.batteries)
        lists.resistors) lists.capacitors) lists.inductors = c4 at h
  have hs4 : c.SameShape c4 := by
    rw [← hc4]
    have h1 := foldl_sameShape _ (fun c a => battery_applySolution_sameShape r c a)
      lists.batteries c
    have h2 := foldl_sameShape _ (fun c a => resistor_applySolution_sameShape r c a)
      lists.resistors (List.foldl (fun c a => ResistiveBatteryAdapter.applySolution a r c) c
        lists.batteries)
    have h3 := foldl_sameShape _ (fun c a => capacitor_applySolution_sameShape r c a)
      lists.capacitors (List.foldl (fun c a => ResistorAdapter.applySolution a r c)
        (List.foldl (fun c a => ResistiveBatteryAdapter.applySolution a r c) c
        lists.batteries) lists.resistors)
    have h4 := foldl_sameShape _ (fun c a => inductor_applySolution_sameShape r c a)
      lists.inductors (List.foldl (fun c a => CapacitorAdapter.applySolution a r c)
        (List.foldl (fun c a => ResistorAdapter.applySolution a r c)
        (List.foldl (fun c a => ResistiveBatteryAdapter.applySolution a r c) c
        lists.batteries) lists.resistors) lists.capacitors)
    exact SameShape.trans (SameShape.trans (SameShape.trans h1 h2) h3) h4
  have hs5 : c4.SameShape (zeroOpenBranches c4) :=
    foldl_sameShape _ zeroOpenBranch_sameShape _ _
  obtain ⟨he, hv, -⟩ := SameShape.trans hs4 hs5
  obtain ⟨k1, k2, k3, k4⟩ := applyNodeVoltages_ok r _ c' h
  refine ⟨c4, hs4, k1, k2.trans he, k3.trans hv, ?_⟩
  rcases k4 with k4 | ⟨s, rest, hst, hc'⟩
  · exact Or.inl (hv.symm.trans k4)
  · refine Or.inr ⟨s, rest, { zeroOpenBranches c4 with solution := some r }, hst, ?_⟩
    rw [hc']
    simp only [hv]

theorem setVertexVoltages_not_mem (g : Nat → JSValue) (l : List Nat) (i : Nat) (c : Circuit)
    (x : Nat) (hx : x ∉ l) : (setVertexVoltages g l i c).voltage x = c.voltage x := by
  induction l generalizing i c with
  | nil => rfl
  | cons v rest ih =>
    simp only [setVertexVoltages]
    rw [ih (i + 1) _ (fun h => hx (List.mem_cons_of_mem _ h))]
    have hne : x ≠ v := fun h => hx (h ▸ List.mem_cons_self _ _)
    simp [Circuit.setVoltage, Function.update_noteq hne]

theorem setVertexVoltages_get (g : Nat → JSValue) (l : List Nat) (i : Nat) (c : Circuit)
    (hl : l.Nodup) (k : Nat) (hk : k < l.length) :
    (setVertexVoltages g l i c).voltage (l.get ⟨k, hk⟩) = (g (i + k)).orZero := by
  induction l generalizing i c k with
  | nil => simp at hk
  | cons v rest ih =>
    simp only [setVertexVoltages]
    obtain ⟨hv, hrest⟩ := List.nodup_cons.mp hl
    cases k with
    | zero =>
      simp only [List.get_eq_getElem, List.getElem_cons_zero, Nat.add_zero]
      rw [setVertexVoltages_not_mem g rest (i + 1) _ v hv]
      simp [Circuit.setVoltage]
    | succ k =>
      have hk' : k < rest.length := by simpa using hk
      have := ih (i + 1) (c.setVoltage v (g i).orZero) hrest k hk'
      simp only [List.get_eq_getElem, List.getElem_cons_succ] at this ⊢
      rw [this]
      congr 2
      omega

theorem indexOf_get_of_nodup (l : List Nat) (hl : l.Nodup) (k : Nat) (hk : k < l.length) :
    indexOf l (l.get ⟨k, hk⟩) = (k : Int) := by
  have hmem : l.get ⟨k, hk⟩ ∈ l := List.get_mem l k hk
  simp only [indexOf, hmem, if_true]
  have := List.get_indexOf hl ⟨k, hk⟩
  simp only at this
  exact_mod_cast this

theorem apply_returns (solve : Solver) (c : Circuit) (dt : ℚ)
    (hType : ∀ b ∈ c.circuitElements, (c.element b).type ≠ .Other)
    (hStates : ∀ dc, (solve dc errorThreshold minDT dt).states ≠ []) :
    ∃ c', apply solve c dt = .ok c' := by
  have hb := buildAdapters_eq c c.circuitElements ⟨[], [], [], []⟩ hType
  simp only [apply, hb, applyResult, applyNodeVoltages]
  split
  · exact ⟨_, rfl⟩
  · split
    · next hst => exact absurd hst (hStates _)
    · exact ⟨_, rfl⟩

theorem apply_ok_inv (solve : Solver) (c c' : Circuit) (dt : ℚ)
    (h : apply solve c dt = .ok c') :
    ∃ lists, buildAdapters c c.circuitElements ⟨[], [], [], []⟩ = .ok lists ∧
      applyResult lists
        (solve ⟨lists.resistors, lists.batteries, lists.capacitors, lists.inductors⟩
          errorThreshold minDT dt) c = .ok c' := by
  unfold apply at h
  split at h
  · simp at h
  · next lists hb => exact ⟨lists, hb, h⟩

/-- C1 (instance): on the sample circuit (battery, open switch, resistor) the first loop
builds one battery adapter between nodes 0 and 1 and one resistor adapter between nodes 2
and 0, two adapters for three elements with one open switch. -/
theorem apply_maps_elements_by_type_witness :
    ∃ lists : AdapterLists,
      buildAdapters sampleCircuit sampleCircuit.circuitElements ⟨[], [], [], []⟩ = .ok lists ∧
      lists.total = 3 - 1 ∧
      lists.batteries = [⟨0, 1, 9, 0, 0⟩] ∧ lists.resistors = [⟨2, 0, 10, 2⟩] := by
  obtain ⟨lists, hb, -, h1, h2, -, -, ht, -⟩ :=
    apply_maps_elements_by_type sampleSolver sampleCircuit 1 (by decide)
  refine ⟨lists, hb, ?_, ?_, ?_⟩
  · rw [ht]; decide
  · rw [h1]
    simp [sampleCircuit, sampleElement, ResistiveBatteryAdapter.new, indexOf]
  · rw [h2]
    simp [sampleCircuit, sampleElement, ResistorAdapter.new, indexOf]

/-- C2: whenever `apply` returns, every Switch of `circuit.circuitElements` whose
`closedProperty` is false has current 0, for every circuit and every solver; `apply` changes
neither the element array nor the class or switch state of any element. It returns whenever
no element has an unknown class and the solver result has a first state. -/
theorem apply_zeroes_open_switches (solve : Solver) (c : Circuit) (dt : ℚ) :
    (∀ c', apply solve c dt = .ok c' →
      c'.circuitElements = c.circuitElements ∧
      (∀ b, (c'.element b).type = (c.element b).type ∧
        (c'.element b).closed = (c.element b).closed) ∧
      ∀ b ∈ c'.circuitElements, (c'.element b).type = .Switch →
        (c'.element b).closed = false → (c'.element b).current = 0) ∧
    ((∀ b ∈ c.circuitElements, (c.element b).type ≠ .Other) →
      (∀ dc, (solve dc errorThreshold minDT dt).states ≠ []) →
      ∃ c', apply solve c dt = .ok c') := by
  refine ⟨fun c' h => ?_, apply_returns solve c dt⟩
  obtain ⟨lists, -, hr⟩ := apply_ok_inv solve c c' dt h
  obtain ⟨c4, hs4, hel, hce, -, -⟩ := applyResult_ok _ _ _ _ hr
  have hs5 : c4.SameShape (zeroOpenBranches c4) :=
    foldl_sameShape _ zeroOpenBranch_sameShape _ _
  obtain ⟨he, -, hf⟩ := SameShape.trans hs4 hs5
  refine ⟨hce, fun b => ?_, fun b hb hty hcl => ?_⟩
  · rw [hel]; exact ⟨(hf b).1, (hf b).2.1⟩
  · rw [hel] at hty hcl ⊢
    rw [hce, ← hs4.1] at hb
    apply foldl_zeroOpenBranch_zero _ _ _ hb
    have h5 := hs5.2.2 b
    rw [h5.1] at hty
    rw [h5.2.1] at hcl
    simp [isOpenSwitch, hty, hcl]

/-- C2 (instance): on the sample circuit `apply` returns and the open switch (object 1),
whose current was 7, has current 0 afterwards. -/
theorem apply_zeroes_open_switches_witness :
    (sampleCircuit.element 1).current = 7 ∧
    ∃ c', apply sampleSolver sampleCircuit 1 = .ok c' ∧ (c'.element 1).current = 0 := by
  obtain ⟨hprop, hret⟩ := apply_zeroes_open_switches sampleSolver sampleCircuit 1
  obtain ⟨c', hc'⟩ := hret (by decide) (by intro dc; simp [sampleSolver, sampleResult])
  obtain ⟨he, hsame, hz⟩ := hprop c' hc'
  refine ⟨by simp [sampleCircuit, sampleElement], c', hc', hz 1 ?_ ?_ ?_⟩
  · rw [he]; decide
  · rw [(hsame 1).1]; decide
  · rw [(hsame 1).2]; decide

/-- C3: when `circuit.vertices` holds each vertex once and `apply` returns, then for every
index `i` the voltage of `circuit.vertices[i]` is `getNodeVoltage( i ) || 0` of the first
state of the solver result for the adapters built: the node voltage itself when that is a
non-zero number, 0 when it is `undefined` (also when it is `NaN` or 0); it is a number in every
case. The index `i` is the `indexOf` of that vertex, which every adapter constructor uses as
node index for an element that starts or ends at the vertex. `apply` returns whenever no
element has an unknown class and the solver result has a first state. -/
theorem apply_sets_vertex_voltages (solve : Solver) (c : Circuit) (dt : ℚ)
    (hDistinct : c.vertices.Nodup) :
    (∀ c', apply solve c dt = .ok c' →
      c'.vertices = c.vertices ∧
      ∃ lists, buildAdapters c c.circuitElements ⟨[], [], [], []⟩ = .ok lists ∧
      ∀ (i : Nat) (hi : i < c.vertices.length), ∃ s rest,
        (solve ⟨lists.resistors, lists.batteries, lists.capacitors, lists.inductors⟩
          errorThreshold minDT dt).states = s :: rest ∧
        c'.voltage (c.vertices.get ⟨i, hi⟩) = (s i).orZero ∧
        (∀ q, s i = .num q → q ≠ 0 → c'.voltage (c.vertices.get ⟨i, hi⟩) = q) ∧
        (s i = .undefined → c'.voltage (c.vertices.get ⟨i, hi⟩) = 0) ∧
        (s i = .nan → c'.voltage (c.vertices.get ⟨i, hi⟩) = 0) ∧
        indexOf c.vertices (c.vertices.get ⟨i, hi⟩) = (i : Int) ∧
        (∀ b, (c.element b).startVertex = c.vertices.get ⟨i, hi⟩ →
          (ResistiveBatteryAdapter.new c b).node0 = (i : Int) ∧
          (ResistorAdapter.new c b).node0 = (i : Int) ∧
          (CapacitorAdapter.new c b).capacitor.node0 = (i : Int) ∧
          (InductorAdapter.new c b).inductor.node0 = (i : Int)) ∧
        (∀ b, (c.element b).endVertex = c.vertices.get ⟨i, hi⟩ →
          (ResistiveBatteryAdapter.new c b).node1 = (i : Int) ∧
          (ResistorAdapter.new c b).node1 = (i : Int) ∧
          (CapacitorAdapter.new c b).capacitor.node1 = (i : Int) ∧
          (InductorAdapter.new c b).inductor.node1 = (i : Int))) ∧
    ((∀ b ∈ c.circuitElements, (c.element b).type ≠ .Other) →
      (∀ dc, (solve dc errorThreshold minDT dt).states ≠ []) →
      ∃ c', apply solve c dt = .ok c') := by
  refine ⟨fun c' h => ?_, apply_returns solve c dt⟩
  obtain ⟨lists, hb, hr⟩ := apply_ok_inv solve c c' dt h
  obtain ⟨c4, -, -, -, hv, hvolt⟩ := applyResult_ok _ _ _ _ hr
  refine ⟨hv, lists, hb, fun i hi => ?_⟩
  rcases hvolt with hnil | ⟨s, rest, c6, hst, hvol⟩
  · rw [hnil] at hi; simp at hi
  · have hval : c'.voltage (c.vertices.get ⟨i, hi⟩) = (s i).orZero := by
      rw [hvol, setVertexVoltages_get s c.vertices 0 c6 hDistinct i hi]
      simp
    have hidx := indexOf_get_of_nodup c.vertices hDistinct i hi
    refine ⟨s, rest, hst, hval, ?_, ?_, ?_, hidx, ?_, ?_⟩
    · intro q hq hq0
      rw [hval, hq]; simp [JSValue.orZero, hq0]
    · intro hu
      rw [hval, hu]; rfl
    · intro hn
      rw [hval, hn]; rfl
    · intro b hbv
      simp only [ResistiveBatteryAdapter.new, ResistorAdapter.new, CapacitorAdapter.new,
        InductorAdapter.new, hbv, hidx, and_self]
    · intro b hbv
      simp only [ResistiveBatteryAdapter.new, ResistorAdapter.new, CapacitorAdapter.new,
        InductorAdapter.new, hbv, hidx, and_self]

/-- C3 (instance): on the sample circuit `apply` returns; vertex 11 at index 1 gets the node
voltage 9, vertex 12 at index 2, which has no entry, gets 0, and vertex 10 with node voltage
0 gets 0. -/
theorem apply_sets_vertex_voltages_witness :
    sampleCircuit.vertices.Nodup ∧
    ∃ c', apply sampleSolver sampleCircuit 1 = .ok c' ∧
      c'.voltage 10 = 0 ∧ c'.voltage 11 = 9 ∧ c'.voltage 12 = 0 := by
  have hnd : sampleCircuit.vertices.Nodup := by decide
  obtain ⟨hprop, hret⟩ := apply_sets_vertex_voltages sampleSolver sampleCircuit 1 hnd
  obtain ⟨c', hc'⟩ := hret (by decide) (by intro dc; simp [sampleSolver, sampleResult])
  obtain ⟨-, lists, -, hall⟩ := hprop c' hc'
  refine ⟨hnd, c', hc', ?_, ?_, ?_⟩
  · obtain ⟨s, rest, hst, hval, -⟩ := hall 0 (by decide)
    simp only [sampleSolver, sampleResult, List.cons.injEq] at hst
    rw [← hst.1] at hval
    simpa [sampleCircuit, JSValue.orZero] using hval
  · obtain ⟨s, rest, hst, hval, -⟩ := hall 1 (by decide)
    simp only [sampleSolver, sampleResult, List.cons.injEq] at hst
    rw [← hst.1] at hval
    simpa [sampleCircuit, JSValue.orZero] using hval
  · obtain ⟨s, rest, hst, hval, -⟩ := hall 2 (by decide)
    simp only [sampleSolver, sampleResult, List.cons.injEq] at hst
    rw [← hst.1] at hval
    simpa [sampleCircuit, JSValue.orZero] using hval

/-! ## Theorems: ConstantDensityPropagator -/

/-- C4: at junction 2 the sample electron (overshoot 1/2, leaving through the end of its
branch) has two adjacent branches with outgoing current: branch 1 starts there with current
3, branch 2 ends there with current -1. Keeping the branches with outgoing current means the
two locations (branch 1 at 1/2, branch 2 at 1 - 1/2); `getLocations` returns no array at all,
because the arm for a branch that ends at the junction calls `all.add` on an array, where the
arm for a branch that starts there calls `all.push`. With branch 1 alone the result is the
single location at distance 1/2. -/
theorem getLocations_incoming_end_throws :
    getLocations sampleAdjacentBranches sampleElectron 1 (1 / 2) false =
      .error "TypeError: all.add is not a function" ∧
    getLocations (fun jroot => (sampleAdjacentBranches jroot).take 1) sampleElectron 1 (1 / 2)
      false = .ok [⟨⟨1, 2, 3, 3, 1⟩, 1 / 2, none⟩] := by
  constructor
  · simp [getLocations, sampleAdjacentBranches, sampleElectron, getLocationsLoop,
      getLocationsStep, limitCurrent, FIRE_CURRENT, createCircuitLocation,
      containsScalarLocation, clampDistAlongNew]
    norm_num
  · simp [getLocations, sampleAdjacentBranches, sampleElectron, getLocationsLoop,
      getLocationsStep, limitCurrent, FIRE_CURRENT, createCircuitLocation,
      containsScalarLocation, clampDistAlongNew]
    norm_num

theorem correction_step_bounds (x m D L : ℚ) (hD : 0 ≤ D) :
    let dest := if |m - x| ≤ D then m else if m < x then x - D else x + D
    let x' := if 0 ≤ dest ∧ dest ≤ L then dest else x
    |x' - x| ≤ D ∧ min x m ≤ x' ∧ x' ≤ max x m ∧ |x' - m| ≤ |x - m| := by
  intro dest x'
  have hx : |x - x| ≤ D ∧ min x m ≤ x ∧ x ≤ max x m ∧ |x - m| ≤ |x - m| :=
    ⟨by simpa using hD, min_le_left _ _, le_max_left _ _, le_refl _⟩
  have hdest : |dest - x| ≤ D ∧ min x m ≤ dest ∧ dest ≤ max x m ∧ |dest - m| ≤ |x - m| := by
    by_cases h1 : |m - x| ≤ D
    · have : dest = m := if_pos h1
      rw [this]
      exact ⟨h1, min_le_right _ _, le_max_right _ _, by simp⟩
    · by_cases h2 : m < x
      · have hd : dest = x - D := by simp only [dest, if_neg h1, if_pos h2]
        have h3 : D < x - m := by
          rw [abs_sub_comm, abs_of_pos (by linarith : 0 < x - m)] at h1
          linarith
        rw [hd]
        refine ⟨?_, ?_, ?_, ?_⟩
        · rw [abs_le]; constructor <;> linarith
        · exact le_trans (min_le_right _ _) (by linarith)
        · exact le_trans (by linarith) (le_max_left _ _)
        · rw [abs_of_nonneg (by linarith : 0 ≤ x - D - m), abs_of_pos (by linarith : 0 < x - m)]
          linarith
      · have hd : dest = x + D := by simp only [dest, if_neg h1, if_neg h2]
        have h3 : D < m - x := by
          rw [abs_of_nonneg (by linarith : 0 ≤ m - x)] at h1
          linarith
        rw [hd]
        refine ⟨?_, ?_, ?_, ?_⟩
        · rw [abs_le]; constructor <;> linarith
        · exact le_trans (min_le_left _ _) (by linarith)
        · exact le_trans (by linarith) (le_max_right _ _)
        · rw [abs_of_nonpos (by linarith : x + D - m ≤ 0),
            abs_of_nonpos (by linarith : x - m ≤ 0)]
          linarith
  by_cases hr : 0 ≤ dest ∧ dest ≤ L
  · have : x' = dest := if_pos hr
    rw [this]; exact hdest
  · have : x' = x := if_neg hr
    rw [this]; exact hx

theorem equalizeElectron_distance (u l : Electron) (h : Option ℚ) (electron : Electron)
    (dt : ℚ) :
    let x := electron.distance
    let m := (l.distance + u.distance) / 2
    let maxDX := |correctionSpeed (m - x) electron.branch.current * dt|
    let dest := if |m - x| ≤ maxDX then m else if m < x then x - maxDX else x + maxDX
    (equalizeElectron (some u) (some l) h electron dt).1 =
      { electron with
        distance := (if 0 ≤ dest ∧ dest ≤ electron.branch.length then dest else x) } := by
  intro x m maxDX dest
  have hm : l.distance + (u.distance - l.distance) / 2 = m := by simp only [m]; ring
  simp only [equalizeElectron, hm]
  by_cases h1 : |m - x| ≤ maxDX
  · have hd : dest = m := if_pos h1
    have h1' : ¬ (|m - electron.distance| >
        |correctionSpeed (m - electron.distance) electron.branch.current * dt|) := not_lt.mpr h1
    rw [hd]
    simp only [h1', if_false]
    split <;> simp_all
  · have h1' : |m - electron.distance| >
        |correctionSpeed (m - electron.distance) electron.branch.current * dt| := not_le.mp h1
    simp only [h1', if_true]
    by_cases h2 : m < x
    · have hd : dest = x - maxDX := by simp only [dest, if_neg h1, if_pos h2]
      have h2' : m < electron.distance := h2
      rw [hd]
      simp only [h2', if_true]
      split <;> simp_all
    · have hd : dest = x + maxDX := by simp only [dest, if_neg h1, if_neg h2]
      have h2' : ¬ m < electron.distance := h2
      have h3 : m > electron.distance := by
        rcases lt_trichotomy m electron.distance with h | h | h
        · exact absurd h h2
        · rw [h] at h1'; simp at h1'
          exact absurd h1' (not_lt.mpr (abs_nonneg _))
        · exact h
      rw [hd]
      simp only [h2', h3, if_true, if_false]
      split <;> simp_all

/-- C5: `equalizeElectron` leaves the electron alone when it has no upper or no lower
neighbour. With both neighbours, `m` their midpoint and `maxDX = |correctionSpeed * dt|`, the
destination is `m` when `|m - x| <= maxDX` and otherwise `x` moved by exactly `maxDX` toward
`m`; the new position is the destination when that lies in `[0, length]` and the old position
otherwise. The electron stays on its branch, moves at most `maxDX`, ends between its old
position and the midpoint, and does not get farther from the midpoint. -/
theorem equalizeElectron_moves_toward_midpoint (u l : Electron) (upper lower : Option Electron)
    (h : Option ℚ) (electron : Electron) (dt : ℚ) :
    (equalizeElectron none lower h electron dt).1 = electron ∧
    (equalizeElectron upper none h electron dt).1 = electron ∧
    (let x := electron.distance
     let m := (l.distance + u.distance) / 2
     let maxDX := |correctionSpeed (m - x) electron.branch.current * dt|
     let dest := if |m - x| ≤ maxDX then m else if m < x then x - maxDX else x + maxDX
     let e' := (equalizeElectron (some u) (some l) h electron dt).1
     e'.branch = electron.branch ∧
     e'.distance = (if 0 ≤ dest ∧ dest ≤ electron.branch.length then dest else x) ∧
     |e'.distance - x| ≤ maxDX ∧ min x m ≤ e'.distance ∧ e'.distance ≤ max x m ∧
     |e'.distance - m| ≤ |x - m|) := by
  refine ⟨rfl, ?_, ?_⟩
  · cases upper <;> rfl
  · intro x m maxDX dest e'
    have he : e' = { electron with
        distance := (if 0 ≤ dest ∧ dest ≤ electron.branch.length then dest else x) } :=
      equalizeElectron_distance u l h electron dt
    have hb := correction_step_bounds x m maxDX electron.branch.length (abs_nonneg _)
    rw [he]
    exact ⟨rfl, rfl, hb⟩

theorem overshootOf_nonneg (branch : Branch) (newX : ℚ) : 0 ≤ (overshootOf branch newX).1 := by
  unfold overshootOf
  split
  · next h => simpa using le_of_lt h
  · exact abs_nonneg _

/-- C7: the sample electron at 1/2 on a branch of length 1 with current 3 is moved by
`3 * speedScale * 1 * 1 = 1` to 3/2, which is not on the branch; the overshoot computed there
is 1/2, which is not below 0, so the assertion `overshoot < 0` fails and `propagate` throws.
The overshoot computed by `propagate` is never below 0, on any branch and for any new
position. -/
theorem propagate_overshoot_assertion_fails :
    (∀ (branch : Branch) (newX : ℚ), ¬ (overshootOf branch newX).1 < 0) ∧
    containsScalarLocation sampleElectron.branch
      (sampleElectron.distance + sampleElectron.branch.current * speedScale * 1 * 1) = false ∧
    overshootOf sampleElectron.branch
      (sampleElectron.distance + sampleElectron.branch.current * speedScale * 1 * 1) =
      (1 / 2, false) ∧
    ¬ ((1 / 2 : ℚ) < 0) ∧
    propagate sampleAdjacentBranches 1 sampleElectron 1 = .error "overshoot is <0" := by
  have hx : sampleElectron.distance + sampleElectron.branch.current * speedScale * 1 * 1 =
      3 / 2 := by
    norm_num [sampleElectron, speedScale]
  have hc : containsScalarLocation sampleElectron.branch (3 / 2) = false := by
    simp [containsScalarLocation, sampleElectron]
    norm_num
  have ho : overshootOf sampleElectron.branch (3 / 2) = (1 / 2, false) := by
    simp [overshootOf, sampleElectron]
    norm_num
  refine ⟨fun branch newX => not_lt.mpr (overshootOf_nonneg branch newX),
    by rw [hx]; exact hc, by rw [hx]; exact ho, by norm_num, ?_⟩
  have hcur : ¬ (sampleElectron.branch.current = 0 ∨
      |sampleElectron.branch.current| < MIN_CURRENT) := by
    norm_num [sampleElectron, MIN_CURRENT]
  simp only [propagate, hcur, if_false, hx, hc, ho]
  norm_num

/-! ## Theorems: ConstantDensityLayout -/

/-- Sample values of `roundDouble`: the doubles written 0.28, 4.48 and 0.1, a number that
needs no rounding, and the two ties above `2 ^ 53`, which go to the even significand. -/
theorem roundDouble_samples :
    roundDouble (28 / 100) = 5044031582654956 / 2 ^ 54 ∧
    roundDouble (448 / 100) = 5044031582654956 / 2 ^ 50 ∧
    roundDouble (1 / 10) = 7205759403792794 / 2 ^ 56 ∧
    roundDouble (-5 / 8) = -5 / 8 ∧
    roundDouble (2 ^ 53 + 1) = 2 ^ 53 ∧
    roundDouble (2 ^ 53 + 3) = 2 ^ 53 + 4 := by
  decide!

theorem layoutIsExact_id (DX len : ℚ) : layoutIsExact id DX len := by
  simp [layoutIsExact]

theorem layoutElectrons_of_exact (round : ℚ → ℚ) (DX : ℚ) (electrons : List Electron)
    (ce : Branch) (h : layoutIsExact round DX ce.length) :
    layoutElectrons round DX electrons ce = layoutElectrons id DX electrons ce := by
  simp only [layoutIsExact] at h
  obtain ⟨h1, h2, h3, h4, h5, h6, h7, h8, h9⟩ := h
  simp only [layoutElectrons, electronsVisible, if_true, id_eq, h1, h2, h3, h4, h5, h6, h7, h8]
  congr 1
  apply List.map_congr_left
  intro i hi
  have hi' : i < (⌈(ce.length - DX / 2 - DX / 2) * (1 / DX)⌉).toNat := by
    have hr := List.mem_range.mp hi
    split at hr
    · simp at hr
    · exact hr
  obtain ⟨ha, hb⟩ := h9 i hi'
  rw [ha, hb]

theorem layoutElectrons_id_eq (DX : ℚ) (electrons : List Electron) (ce : Branch)
    (hDX : 0 < DX) (hlen : 2 * DX < ce.length) :
    (2 : Int) ≤ ⌈(ce.length - DX) / DX⌉ ∧
    layoutElectrons id DX electrons ce =
      electrons.filter (fun e => e.branch.id ≠ ce.id) ++
        (List.range (⌈(ce.length - DX) / DX⌉).toNat).map (fun (i : Nat) =>
          ({ branch := ce
             distance := DX / 2 + (i : ℚ) * (ce.length - DX) /
              (((⌈(ce.length - DX) / DX⌉ : Int) : ℚ) - 1) } : Electron)) := by
  have hL : 0 < ce.length - DX := by linarith
  have hreal : (1 : ℚ) < (ce.length - DX) / DX := by
    rw [lt_div_iff₀ hDX]; linarith
  have hN : (2 : Int) ≤ ⌈(ce.length - DX) / DX⌉ := by
    have : (1 : Int) < ⌈(ce.length - DX) / DX⌉ := Int.lt_ceil.mpr (by exact_mod_cast hreal)
    omega
  have hNq : (2 : ℚ) ≤ ((⌈(ce.length - DX) / DX⌉ : Int) : ℚ) := by exact_mod_cast hN
  refine ⟨hN, ?_⟩
  have e1 : (ce.length - DX) * (1 / DX) = (ce.length - DX) / DX := by
    field_simp
  have e2 : ce.length - DX / 2 - DX / 2 = ce.length - DX := by ring
  have hdens : (((⌈(ce.length - DX) / DX⌉ : Int) : ℚ) - 1) / (ce.length - DX) ≠ 0 := by
    apply div_ne_zero <;> linarith
  have hfilter : electrons.filter (fun e => decide (e ∉ electrons.filter
      (fun e => decide (e.branch.id = ce.id)))) =
      electrons.filter (fun e => decide (e.branch.id ≠ ce.id)) := by
    apply List.filter_congr
    intro e he
    simp [List.mem_filter, he]
  simp only [layoutElectrons, electronsVisible, if_true, id_eq, e1, e2, hdens, if_false,
    hfilter]
  congr 1
  apply List.map_congr_left
  intro i _
  congr 1
  have hne : ((⌈(ce.length - DX) / DX⌉ : Int) : ℚ) - 1 ≠ 0 := by linarith
  field_simp
  ring

/-- The number of electrons on the element after `layoutElectrons`, for any rounding: the
ceiling of the rounded product `L * desiredDensity`, or none when `mydensity` is 0. -/
theorem layoutElectrons_count (round : ℚ → ℚ) (DX : ℚ) (electrons : List Electron)
    (ce : Branch) :
    ((layoutElectrons round DX electrons ce).filter (fun e => e.branch.id = ce.id)).length =
      (if round (round (((⌈round (round (round (ce.length - round (DX / 2)) - round (DX / 2)) *
            round (1 / DX))⌉ : Int) : ℚ) - 1) /
            round (round (ce.length - round (DX / 2)) - round (DX / 2))) = 0 then 0
        else ⌈round (round (round (ce.length - round (DX / 2)) - round (DX / 2)) *
            round (1 / DX))⌉).toNat := by
  simp only [layoutElectrons, electronsVisible, if_true]
  rw [List.filter_append]
  have h1 : (electrons.filter (fun e => decide (e ∉ electrons.filter
      (fun e => decide (e.branch.id = ce.id))))).filter
      (fun e => decide (e.branch.id = ce.id)) = [] := by
    rw [List.filter_eq_nil_iff]
    intro e he
    have h := List.mem_filter.mp he
    simp only [decide_eq_true_eq, List.mem_filter, not_and] at h
    simpa using fun hid => h.2 h.1 hid
  rw [h1, List.nil_append, List.filter_eq_self.mpr, List.length_map, List.length_range]
  intro e he
  obtain ⟨i, -, rfl⟩ := List.mem_map.mp he
  simp

/-- C6 (as stated, refuted): with the doubles nearest to 0.28 and 4.48 for `ELECTRON_DX`
and the length, `ELECTRON_DX > 0` and `len > 2 * ELECTRON_DX` hold and
`ceil((len - ELECTRON_DX) / ELECTRON_DX)` is 15, but the product `L * desiredDensity` is
rounded to a double just above 15 and `layoutElectrons` places 16 electrons. -/
theorem layoutElectrons_count_counterexample :
    0 < roundDouble (28 / 100) ∧
    2 * roundDouble (28 / 100) < roundDouble (448 / 100) ∧
    ⌈(roundDouble (448 / 100) - roundDouble (28 / 100)) / roundDouble (28 / 100)⌉ = 15 ∧
    (layoutElectrons roundDouble (roundDouble (28 / 100)) []
      ⟨0, 1, 2, 0, roundDouble (448 / 100)⟩).length = 16 ∧
    (layoutElectrons roundDouble (roundDouble (28 / 100)) []
      ⟨0, 1, 2, 0, roundDouble (448 / 100)⟩).length ≠
      (⌈(roundDouble (448 / 100) - roundDouble (28 / 100)) / roundDouble (28 / 100)⌉).toNat := by
  decide!

/-- C6 (amended): for `ELECTRON_DX > 0` and an element of length `len > 2 * ELECTRON_DX`,
when no intermediate result of the computation is changed by rounding (as in exact
arithmetic, where that always holds), `layoutElectrons` removes the electrons of the element
and adds exactly `N = ceil((len - ELECTRON_DX) / ELECTRON_DX)` electrons on it (`N >= 2`),
electron `i` at `ELECTRON_DX/2 + i * (len - ELECTRON_DX)/(N - 1)`; the first is at
`ELECTRON_DX/2`, the last at `len - ELECTRON_DX/2`, and every one lies in `[0, len]`. With
any rounding the number of electrons on the element is the ceiling of the rounded product
`L * desiredDensity`, or 0 when the rounded `mydensity` is 0. -/
theorem layoutElectrons_fixes_end_points (round : ℚ → ℚ) (DX : ℚ) (electrons : List Electron)
    (ce : Branch) (hDX : 0 < DX) (hlen : 2 * DX < ce.length)
    (hExact : layoutIsExact round DX ce.length) :
    let len := ce.length
    let N : Int := ⌈(len - DX) / DX⌉
    let position : Nat → ℚ := fun i => DX / 2 + (i : ℚ) * (len - DX) / ((N : ℚ) - 1)
    2 ≤ N ∧
    layoutElectrons round DX electrons ce =
      electrons.filter (fun e => e.branch.id ≠ ce.id) ++
        (List.range N.toNat).map
          (fun (i : Nat) => ({ branch := ce, distance := position i } : Electron)) ∧
    ((layoutElectrons round DX electrons ce).filter (fun e => e.branch.id = ce.id)).length =
      N.toNat ∧
    position 0 = DX / 2 ∧
    position (N.toNat - 1) = len - DX / 2 ∧
    (∀ i, i < N.toNat → 0 ≤ position i ∧ position i ≤ len) ∧
    layoutIsExact id DX len ∧
    ∀ (anyRound : ℚ → ℚ),
      ((layoutElectrons anyRound DX electrons ce).filter
        (fun e => e.branch.id = ce.id)).length =
      (if anyRound (anyRound (((⌈anyRound (anyRound (anyRound (len - anyRound (DX / 2)) -
            anyRound (DX / 2)) * anyRound (1 / DX))⌉ : Int) : ℚ) - 1) /
            anyRound (anyRound (len - anyRound (DX / 2)) - anyRound (DX / 2))) = 0 then 0
        else ⌈anyRound (anyRound (anyRound (len - anyRound (DX / 2)) - anyRound (DX / 2)) *
            anyRound (1 / DX))⌉).toNat := by
  intro len N position
  obtain ⟨hN', heq'⟩ := layoutElectrons_id_eq DX electrons ce hDX hlen
  have heq := (layoutElectrons_of_exact round DX electrons ce hExact).trans heq'
  have hN : 2 ≤ N := hN'
  have hL : 0 < len - DX := by simp only [len]; linarith
  have hNq : (2 : ℚ) ≤ (N : ℚ) := by exact_mod_cast hN
  have hNpos : (0 : ℚ) < (N : ℚ) - 1 := by linarith
  have hcast : ((N.toNat : Nat) : ℚ) = (N : ℚ) := by
    have : ((N.toNat : Nat) : Int) = N := Int.toNat_of_nonneg (by omega)
    exact_mod_cast this
  refine ⟨hN, heq, ?_, ?_, ?_, ?_, layoutIsExact_id DX len,
    fun anyRound => layoutElectrons_count anyRound DX electrons ce⟩
  · rw [heq, List.filter_append]
    have h1 : (electrons.filter (fun e => decide (e.branch.id ≠ ce.id))).filter
        (fun e => decide (e.branch.id = ce.id)) = [] := by
      rw [List.filter_eq_nil_iff]
      intro e he
      have := (List.mem_filter.mp he).2
      simpa using this
    rw [h1, List.nil_append, List.filter_eq_self.mpr, List.length_map, List.length_range]
    intro e he
    obtain ⟨i, -, rfl⟩ := List.mem_map.mp he
    simp
  · simp [position]
  · have h2 : 1 ≤ N.toNat := by omega
    have hc : ((N.toNat - 1 : Nat) : ℚ) = (N : ℚ) - 1 := by
      rw [Nat.cast_sub h2, hcast]; simp
    simp only [position, hc]
    field_simp
    ring
  · intro i hi
    have hi' : (i : ℚ) ≤ (N : ℚ) - 1 := by
      have : (i : ℚ) + 1 ≤ ((N.toNat : Nat) : ℚ) := by exact_mod_cast hi
      rw [hcast] at this; linarith
    have hi0 : (0 : ℚ) ≤ (i : ℚ) := Nat.cast_nonneg i
    have hfrac0 : 0 ≤ (i : ℚ) * (len - DX) / ((N : ℚ) - 1) :=
      div_nonneg (mul_nonneg hi0 hL.le) hNpos.le
    have hfrac1 : (i : ℚ) * (len - DX) / ((N : ℚ) - 1) ≤ len - DX := by
      rw [div_le_iff₀ hNpos]
      nlinarith
    simp only [position]
    constructor <;> linarith

/-- C6 (instance): in doubles, with `ELECTRON_DX = 0.25` no operation on an element of length
0.75 is rounded, and the element gets `ceil(0.5 / 0.25) = 2` electrons, at 0.125 and at
0.625. -/
theorem layoutElectrons_fixes_end_points_witness :
    layoutIsExact roundDouble (1 / 4) (3 / 4) ∧
    layoutElectrons roundDouble (1 / 4) [] ⟨0, 1, 2, 0, 3 / 4⟩ =
      [⟨⟨0, 1, 2, 0, 3 / 4⟩, 1 / 8⟩, ⟨⟨0, 1, 2, 0, 3 / 4⟩, 5 / 8⟩] := by
  have hExact : layoutIsExact roundDouble (1 / 4) (3 / 4) := by
    simp only [layoutIsExact]
    decide!
  have h := (layoutElectrons_fixes_end_points roundDouble (1 / 4) [] ⟨0, 1, 2, 0, 3 / 4⟩
    (by norm_num) (by norm_num) hExact).2.1
  have hc : ⌈((3 / 4 : ℚ) - 1 / 4) / (1 / 4)⌉ = 2 := by
    rw [Int.ceil_eq_iff]; norm_num
  simp only [hc] at h
  refine ⟨hExact, ?_⟩
  rw [h]
  simp [List.range_succ]
  norm_num

/-! ## Theorems: Wire -/

theorem update_of_dirty {K : Type} [LinearOrderedField K]
    (distance : Vector2 K → Vector2 K → K) (w : Wire K) (hDirty : w.wireDirty = true) :
    w.update distance =
      { w with
        length := distance w.startPosition w.endPosition * METERS_PER_VIEW_COORDINATE K
        resistance := max (MINIMUM_RESISTANCE K)
          (w.resistivity * (distance w.startPosition w.endPosition *
            METERS_PER_VIEW_COORDINATE K) / WIRE_CROSS_SECTIONAL_AREA K)
        chargePathLength := max (distance w.startPosition w.endPosition) (1 / 10 ^ 6)
        wireDirty := false } := by
  simp [Wire.update, hDirty]

theorem update_of_clean {K : Type} [LinearOrderedField K]
    (distance : Vector2 K → Vector2 K → K) (w : Wire K) (hClean : w.wireDirty = false) :
    w.update distance = w := by
  simp [Wire.update, hClean]

/-- C8: `update()` on a dirty wire sets the length to `d * 0.0005` and the resistance to
`max(MINIMUM_RESISTANCE, resistivity * (d * 0.0005) / WIRE_CROSS_SECTIONAL_AREA)`, where `d` is
the distance between the two positions; with the constants 0.0005, 5E-4 and 1E-8 that is
`max(1E-8, resistivity * d)`. -/
theorem update_sets_length_and_resistance {K : Type} [LinearOrderedField K]
    (distance : Vector2 K → Vector2 K → K) (w : Wire K) (hDirty : w.wireDirty = true) :
    let d := distance w.startPosition w.endPosition
    (w.update distance).length = d * (5 / 10000) ∧
    (w.update distance).resistance = max (MINIMUM_RESISTANCE K)
      (w.resistivity * (d * (5 / 10000)) / WIRE_CROSS_SECTIONAL_AREA K) ∧
    METERS_PER_VIEW_COORDINATE K = 5 / 10000 ∧
    WIRE_CROSS_SECTIONAL_AREA K = 5 / 10000 ∧
    MINIMUM_RESISTANCE K = 1 / 10 ^ 8 ∧
    (w.update distance).resistance = max (1 / 10 ^ 8) (w.resistivity * d) := by
  intro d
  rw [update_of_dirty distance w hDirty]
  refine ⟨rfl, rfl, rfl, rfl, rfl, ?_⟩
  simp only [MINIMUM_RESISTANCE, METERS_PER_VIEW_COORDINATE, WIRE_CROSS_SECTIONAL_AREA]
  congr 1
  field_simp
  simp only [d]
  ring

/-- C8 (instance): the dirty sample wire of 100 view units with resistivity 1.68E-8 gets
length 0.05 and resistance 1.68E-6. -/
theorem update_sets_length_and_resistance_witness :
    sampleWire.wireDirty = true ∧
    (sampleWire.update sampleDistance).length = 5 / 100 ∧
    (sampleWire.update sampleDistance).resistance = 168 / 10 ^ 8 := by
  obtain ⟨h1, -, -, -, -, h2⟩ :=
    update_sets_length_and_resistance sampleDistance sampleWire rfl
  refine ⟨rfl, ?_, ?_⟩
  · rw [h1]; norm_num [sampleWire, sampleDistance]
  · rw [h2]; norm_num [sampleWire, sampleDistance]

theorem update_resistance_ge {K : Type} [LinearOrderedField K]
    (distance : Vector2 K → Vector2 K → K) (w : Wire K)
    (h : MINIMUM_RESISTANCE K ≤ w.resistance) :
    MINIMUM_RESISTANCE K ≤ (w.update distance).resistance := by
  cases hd : w.wireDirty
  · rw [update_of_clean distance w hd]; exact h
  · rw [update_of_dirty distance w hd]; exact le_max_left _ _

theorem perform_resistance_ge {K : Type} [LinearOrderedField K]
    (distance : Vector2 K → Vector2 K → K) (w : Wire K) (a : WireAction K)
    (h : MINIMUM_RESISTANCE K ≤ w.resistance) :
    MINIMUM_RESISTANCE K ≤ (w.perform distance a).resistance := by
  cases a with
  | moveStartVertex p => exact h
  | moveEndVertex p => exact h
  | setResistivity r => exact h
  | markWireDirty => exact h
  | step time dt => exact update_resistance_ge distance w h
  | update => exact update_resistance_ge distance w h

theorem run_resistance_ge {K : Type} [LinearOrderedField K]
    (distance : Vector2 K → Vector2 K → K) (w : Wire K) (actions : List (WireAction K))
    (h : MINIMUM_RESISTANCE K ≤ w.resistance) :
    MINIMUM_RESISTANCE K ≤ (w.run distance actions).resistance := by
  induction actions generalizing w with
  | nil => exact h
  | cons a rest ih => exact ih _ (perform_resistance_ge distance w a h)

/-- C9: in every state reached from the constructor by any sequence of vertex moves,
resistivity changes, `markWireDirty`, `step` and `update` calls, the resistance is at least
`MINIMUM_RESISTANCE = 1E-8`, for every distance function, all positions and every
resistivity. -/
theorem wire_resistance_at_least_minimum {K : Type} [LinearOrderedField K]
    (distance : Vector2 K → Vector2 K → K) (startPosition endPosition : Vector2 K)
    (resistivity : K) (actions : List (WireAction K)) :
    MINIMUM_RESISTANCE K = 1 / 10 ^ 8 ∧
    MINIMUM_RESISTANCE K ≤
      ((Wire.new distance startPosition endPosition resistivity).run distance actions).resistance :=
  ⟨rfl, run_resistance_ge distance _ actions (le_max_left _ _)⟩

theorem iterate_markWireDirty {K : Type} (w : Wire K) (n : Nat) :
    Wire.markWireDirty^[n + 1] w = w.markWireDirty := by
  induction n with
  | zero => rfl
  | succ n ih =>
    rw [Function.iterate_succ_apply', ih]
    rfl

/-- C10: `update()` and `step( time, dt )` on a wire that is not dirty change nothing;
`update()` always leaves `wireDirty` false and a second `update()` changes nothing more; after
any positive number of `markWireDirty` calls one `update()` recomputes length, resistance and
charge path length once, from the positions and the resistivity the wire has at that time. -/
theorem update_batches_changes {K : Type} [LinearOrderedField K]
    (distance : Vector2 K → Vector2 K → K) (w : Wire K) (n : Nat) (time dt : K) :
    (w.wireDirty = false → w.update distance = w ∧ w.step distance time dt = w) ∧
    (w.update distance).wireDirty = false ∧
    (w.step distance time dt).wireDirty = false ∧
    (w.update distance).update distance = w.update distance ∧
    (Wire.markWireDirty^[n + 1] w).update distance =
      { w with
        length := distance w.startPosition w.endPosition * METERS_PER_VIEW_COORDINATE K
        resistance := max (MINIMUM_RESISTANCE K)
          (w.resistivity * (distance w.startPosition w.endPosition *
            METERS_PER_VIEW_COORDINATE K) / WIRE_CROSS_SECTIONAL_AREA K)
        chargePathLength := max (distance w.startPosition w.endPosition) (1 / 10 ^ 6)
        wireDirty := false } ∧
    ((Wire.markWireDirty^[n + 1] w).update distance).update distance =
      (Wire.markWireDirty^[n + 1] w).update distance := by
  have hclean : ∀ v : Wire K, (v.update distance).wireDirty = false := by
    intro v
    cases hd : v.wireDirty
    · rw [update_of_clean distance v hd]; exact hd
    · rw [update_of_dirty distance v hd]
  refine ⟨fun h => ⟨update_of_clean distance w h, update_of_clean distance w h⟩,
    hclean w, hclean w, update_of_clean distance _ (hclean w), ?_,
    update_of_clean distance _ (hclean _)⟩
  rw [iterate_markWireDirty, update_of_dirty distance _ rfl]
  rfl

/-- C10 (instance): the sample wire after `update()` is not dirty, and a further `update()`
or `step` leaves it as it is. -/
theorem update_batches_changes_witness :
    (sampleWire.update sampleDistance).wireDirty = false ∧
    (sampleWire.update sampleDistance).update sampleDistance =
      sampleWire.update sampleDistance ∧
    (sampleWire.update sampleDistance).step sampleDistance 0 1 =
      sampleWire.update sampleDistance :=
  have h := update_batches_changes sampleDistance (sampleWire.update sampleDistance) 0 0 1
  have hc : (sampleWire.update sampleDistance).wireDirty = false :=
    (update_batches_changes sampleDistance sampleWire 0 0 1).2.1
  ⟨hc, (h.1 hc).1, (h.1 hc).2⟩

/-- C11: after `update()` on a dirty wire the charge path length is `max(d, 1E-6)` for the
distance `d` between the two vertices: it is `d` when `d >= 1E-6`, it is the threshold 1E-6
when the vertices coincide at distance 0, and it is never below 1E-6. The constructor ends
with `update()`, so a new wire has charge path length `max(d, 1E-6)`, at least 1E-6. -/
theorem update_charge_path_length {K : Type} [LinearOrderedField K]
    (distance : Vector2 K → Vector2 K → K) (w : Wire K) (hDirty : w.wireDirty = true)
    (startPosition endPosition : Vector2 K) (resistivity : K) :
    let d := distance w.startPosition w.endPosition
    (w.update distance).chargePathLength = max d (1 / 10 ^ 6) ∧
    (1 / 10 ^ 6 ≤ d → (w.update distance).chargePathLength = d) ∧
    (d = 0 → (w.update distance).chargePathLength = 1 / 10 ^ 6) ∧
    1 / 10 ^ 6 ≤ (w.update distance).chargePathLength ∧
    (Wire.new distance startPosition endPosition resistivity).chargePathLength =
      max (distance startPosition endPosition) (1 / 10 ^ 6) ∧
    1 / 10 ^ 6 ≤ (Wire.new distance startPosition endPosition resistivity).chargePathLength := by
  intro d
  have hu : (w.update distance).chargePathLength = max d (1 / 10 ^ 6) := by
    rw [update_of_dirty distance w hDirty]
  have hn : (Wire.new distance startPosition endPosition resistivity).chargePathLength =
      max (distance startPosition endPosition) (1 / 10 ^ 6) := by
    unfold Wire.new
    simp only []
    rw [update_of_dirty distance _ rfl]
    rfl
  refine ⟨hu, fun hd => ?_, fun hd => ?_, ?_, hn, ?_⟩
  · rw [hu]; exact max_eq_left hd
  · rw [hu, hd]
    exact max_eq_right (by positivity)
  · rw [hu]; exact le_max_right _ _
  · rw [hn]; exact le_max_right _ _

/-- C11 (instance): the dirty wire whose vertices coincide, with stale charge path length 0,
gets charge path length 1E-6 from `update()`. -/
theorem update_charge_path_length_witness :
    coincidentWire.wireDirty = true ∧ coincidentWire.chargePathLength = 0 ∧
    (coincidentWire.update sampleDistance).chargePathLength = 1 / 10 ^ 6 := by
  obtain ⟨-, -, h0, -⟩ :=
    update_charge_path_length sampleDistance coincidentWire rfl ⟨0, 0⟩ ⟨0, 0⟩ 0
  refine ⟨rfl, rfl, h0 ?_⟩
  norm_num [coincidentWire, sampleDistance]

/-! ## Theorems: CircuitElementIO -/

/-- C12: for a circuit element whose start and end vertex are registered in the engine under
their own phet-io IDs, `fromStateObject( toStateObject( e ) )` returns a state and
`stateToArgsForConstructor` of that state is the start vertex followed by the end vertex. -/
theorem circuitElement_state_round_trip (phetioEngine : PhetioEngine) (phetioID : Nat → String)
    (e : CircuitElement)
    (hStart : phetioEngine.hasPhetioObject (phetioID e.startVertex) = true ∧
      phetioEngine.getPhetioObject (phetioID e.startVertex) = e.startVertex)
    (hEnd : phetioEngine.hasPhetioObject (phetioID e.endVertex) = true ∧
      phetioEngine.getPhetioObject (phetioID e.endVertex) = e.endVertex) :
    ∃ state, fromStateObject phetioEngine (toStateObject phetioID e) = .ok state ∧
      stateToArgsForConstructor state = [e.startVertex, e.endVertex] := by
  refine ⟨⟨e.startVertex, e.endVertex⟩, ?_, rfl⟩
  simp [fromStateObject, toStateObject, hStart.1, hStart.2, hEnd.1, hEnd.2]

/-- C12 (instance): the battery of the sample circuit, between the vertices 10 and 11 that
the sample engine has registered, round-trips to the arguments 10, 11. -/
theorem circuitElement_state_round_trip_witness :
    ∃ state, fromStateObject sampleEngine
        (toStateObject samplePhetioID (sampleCircuit.element 0)) = .ok state ∧
      stateToArgsForConstructor state = [10, 11] :=
  circuitElement_state_round_trip sampleEngine samplePhetioID (sampleCircuit.element 0)
    ⟨by decide, by decide⟩ ⟨by decide, by decide⟩

/-- C13: `fromStateObject` throws exactly when the start vertex ID or the end vertex ID is
not registered in the engine, and what it throws is `CouldNotYetDeserializeError`; when both
are registered it returns the objects registered under the two IDs as `startVertex` and
`endVertex`. -/
theorem fromStateObject_throws_iff (phetioEngine : PhetioEngine) (stateObject : StateObject) :
    ((∃ err, fromStateObject phetioEngine stateObject = .error err) ↔
      (phetioEngine.hasPhetioObject stateObject.startVertexID = false ∨
        phetioEngine.hasPhetioObject stateObject.endVertexID = false)) ∧
    (∀ err, fromStateObject phetioEngine stateObject = .error err →
      err = .CouldNotYetDeserializeError) ∧
    (phetioEngine.hasPhetioObject stateObject.startVertexID = true →
      phetioEngine.hasPhetioObject stateObject.endVertexID = true →
      fromStateObject phetioEngine stateObject = .ok
        { startVertex := phetioEngine.getPhetioObject stateObject.startVertexID
          endVertex := phetioEngine.getPhetioObject stateObject.endVertexID }) := by
  refine ⟨?_, ?_, ?_⟩
  · cases hs : phetioEngine.hasPhetioObject stateObject.startVertexID <;>
      cases he : phetioEngine.hasPhetioObject stateObject.endVertexID <;>
      simp [fromStateObject, hs, he] <;>
      exact ⟨.CouldNotYetDeserializeError, trivial⟩
  · intro err _
    cases err
    rfl
  · intro hs he
    simp [fromStateObject, hs, he]

/-- C13 (instance): with the sample engine, a state object naming the registered vertices 10
and 11 is read back as the objects 10 and 11, and one naming the unregistered vertex 12
throws. -/
theorem fromStateObject_throws_iff_witness :
    fromStateObject sampleEngine ⟨"circuit.vertex10", "circuit.vertex11"⟩ = .ok ⟨10, 11⟩ ∧
    ∃ err, fromStateObject sampleEngine ⟨"circuit.vertex10", "circuit.vertex12"⟩ =
      .error err :=
  ⟨(fromStateObject_throws_iff sampleEngine ⟨"circuit.vertex10", "circuit.vertex11"⟩).2.2
      (by decide) (by decide),
    (fromStateObject_throws_iff sampleEngine ⟨"circuit.vertex10", "circuit.vertex12"⟩).1.mpr
      (Or.inr (by decide))⟩

end CCK
